import Mathlib

/-!
# Partial knowledge of a discrete logarithm (emmy, `crypto/dlogproofs`)

Shallow embedding of `partial_dlog_knowledge.go`.

* A `*big.Int` argument is a natural number, except `secret1`, which the prover only
  multiplies, adds and reduces, and which is kept as an integer.
* A `*big.Int` or `*types.Triple` field of a struct is an `Option`: the constructors
  `NewPartialDLogProver` and `NewPartialDLogVerifier` leave them `nil`, and a method that
  dereferences a `nil` field panics, which is the result `none`.
* Each call of `common.GetRandomInt` is an explicit argument holding the value drawn.
* For the effects of `Verify` on memory, the method is embedded a second time on a heap of
  `big.Int` objects (`VerifierRef.Verify`), where pointers are addresses and the methods of
  `big.Int` write into their receiver; it refines `PartialDLogVerifier.Verify`.
* `GetProofDataOutcome` is `GetProofData` with the kind of failure made explicit.
-/

namespace Emmy

/-! ## Collaborators of the package that the source file imports -/

/-- Modelled from the spec: the group parameters of `dlog.ZpDLog` (Group Interface): a
modulus `P` and the order of the subgroup, `OrderOfSubgroup`. -/
structure ZpDLog where
  P : Nat
  OrderOfSubgroup : Nat
deriving DecidableEq

/-- Modelled from the spec: `subgroupOrder() -> N` of the Group Interface. -/
def ZpDLog.GetOrderOfSubgroup (dlog : ZpDLog) : Nat := dlog.OrderOfSubgroup

/-- Modelled from the spec: `exponentiate(base, exponent) -> result` of the Group
Interface, modulo the group's modulus. The exponent is a natural number: the interface
fails on a negative one. -/
def ZpDLog.Exponentiate (dlog : ZpDLog) (x y : Nat) : Nat := x ^ y % dlog.P

/-- Modelled from the spec: `multiply(x, y) -> result` of the Group Interface, modulo the
group's modulus. -/
def ZpDLog.Multiply (dlog : ZpDLog) (x y : Nat) : Nat := x * y % dlog.P

/-- Modelled from the spec: `inverse(x) -> result` of the Group Interface, which fails if
`x` is not invertible: the residue `y` in `[0, P)` with `x * y = 1` modulo `P`, and `none`
when there is none. -/
def ZpDLog.Inverse (dlog : ZpDLog) (x : Nat) : Option Nat :=
  (List.range dlog.P).find? (fun y => decide (x * y % dlog.P = 1 % dlog.P))

/-- Modelled from the spec: `types.Triple`, the ordered 3-tuple built by
`types.NewTriple(a, b, c)`, with fields `A`, `B`, `C` in the order of the arguments. -/
structure Triple where
  A : Nat
  B : Nat
  C : Nat
deriving DecidableEq

/-- Modelled from the spec: `types.NewTriple`, plain construction. -/
def NewTriple (a b c : Nat) : Triple := ⟨a, b, c⟩

/-! ## Prover -/

/-- The struct `PartialDLogProver`. -/
structure PartialDLogProver where
  DLog : ZpDLog
  secret1 : Option Int
  a1 : Option Nat
  a2 : Option Nat
  r1 : Option Nat
  c2 : Option Nat
  z2 : Option Nat
  ord : Nat
deriving DecidableEq

/-- Constructor `NewPartialDLogProver`: only `DLog` is set; the other fields have their
zero value. -/
def NewPartialDLogProver (dlog : ZpDLog) : PartialDLogProver :=
  { DLog := dlog, secret1 := none, a1 := none, a2 := none, r1 := none, c2 := none,
    z2 := none, ord := 0 }

/-- Method `PartialDLogProver.GetProofRandomData`. The arguments `r1 c2 z2` are the three
values drawn by `GetRandomInt(q)` and `ordDraw` is the value drawn by `GetRandomInt(2)`.
The result holds the prover after the call and the two triples returned; it is `none`
when `Inverse` fails. -/
def PartialDLogProver.GetProofRandomData (prover : PartialDLogProver) (secret1 : Int)
    (a1 b1 a2 b2 : Nat) (r1 c2 z2 ordDraw : Nat) :
    Option (PartialDLogProver × Triple × Triple) :=
  let prover := { prover with a1 := some a1, a2 := some a2, secret1 := some secret1 }
  let prover := { prover with r1 := some r1, c2 := some c2, z2 := some z2 }
  let x1 := prover.DLog.Exponentiate a1 r1
  let x2 := prover.DLog.Exponentiate a2 z2
  let b2ToC2 := prover.DLog.Exponentiate b2 c2
  match prover.DLog.Inverse b2ToC2 with
  | none => none
  | some b2ToC2Inv =>
    let x2 := prover.DLog.Multiply x2 b2ToC2Inv
    let triple1 := NewTriple x1 a1 b1
    let triple2 := NewTriple x2 a2 b2
    if ordDraw = 0 then
      some ({ prover with ord := 0 }, triple1, triple2)
    else
      some ({ prover with ord := 1 }, triple2, triple1)

/-- The value `z1` of `GetProofData` before it is returned: `c1 * secret1 + r1` reduced
by `big.Int.Mod`, the Euclidean modulus, whose result lies in `[0, q)` for `q > 0`. -/
def responseZ1 (q : Nat) (c1 : Nat) (secret1 : Int) (r1 : Nat) : Int :=
  ((c1 : Int) * secret1 + (r1 : Int)) % (q : Int)

/-- Method `PartialDLogProver.GetProofData`. A `nil` field dereferenced by `Xor`, `Mul` or
`Add` panics, and so does `big.Int.Mod` on a zero modulus. The field `z2` is only
returned; it is set together with `c2` by `GetProofRandomData`, so it is `nil` only when
`c2` is. -/
def PartialDLogProver.GetProofData (prover : PartialDLogProver) (challenge : Nat) :
    Option (Nat × Nat × Nat × Nat) :=
  match prover.c2, prover.secret1, prover.r1, prover.z2 with
  | some c2, some secret1, some r1, some z2 =>
    let c1 := c2 ^^^ challenge
    if prover.DLog.GetOrderOfSubgroup = 0 then none
    else
      let z1 := (responseZ1 prover.DLog.GetOrderOfSubgroup c1 secret1 r1).toNat
      if prover.ord = 0 then some (c1, z1, c2, z2)
      else some (c2, z2, c1, z1)
  | _, _, _, _ => none

/-! ## Verifier -/

/-- The struct `PartialDLogVerifier`. -/
structure PartialDLogVerifier where
  DLog : ZpDLog
  triple1 : Option Triple
  triple2 : Option Triple
  challenge : Option Nat
deriving DecidableEq

/-- Constructor `NewPartialDLogVerifier`: only `DLog` is set. -/
def NewPartialDLogVerifier (dlog : ZpDLog) : PartialDLogVerifier :=
  { DLog := dlog, triple1 := none, triple2 := none, challenge := none }

/-- Method `PartialDLogVerifier.SetProofRandomData`. -/
def PartialDLogVerifier.SetProofRandomData (verifier : PartialDLogVerifier)
    (triple1 triple2 : Triple) : PartialDLogVerifier :=
  { verifier with triple1 := some triple1, triple2 := some triple2 }

/-- Method `PartialDLogVerifier.GetChallenge`; `challenge` is the value drawn by
`GetRandomInt(q)`. Returns the verifier after the call and the challenge. -/
def PartialDLogVerifier.GetChallenge (verifier : PartialDLogVerifier) (challenge : Nat) :
    PartialDLogVerifier × Nat :=
  ({ verifier with challenge := some challenge }, challenge)

/-- Method `PartialDLogVerifier.verifyTriple`. -/
def PartialDLogVerifier.verifyTriple (verifier : PartialDLogVerifier) (triple : Triple)
    (challenge z : Nat) : Bool :=
  let left := verifier.DLog.Exponentiate triple.B z
  let r1 := verifier.DLog.Exponentiate triple.C challenge
  let right := verifier.DLog.Multiply r1 triple.A
  decide (left = right)

/-- Method `PartialDLogVerifier.Verify`. The stored challenge is dereferenced by `Cmp` first; the
triples are dereferenced only after the XOR check has passed. -/
def PartialDLogVerifier.Verify (verifier : PartialDLogVerifier) (c1 z1 c2 z2 : Nat) :
    Option Bool :=
  let c := c1 ^^^ c2
  match verifier.challenge with
  | none => none
  | some challenge =>
    if c ≠ challenge then some false
    else
      match verifier.triple1 with
      | none => none
      | some triple1 =>
        let verified1 := verifier.verifyTriple triple1 c1 z1
        match verifier.triple2 with
        | none => none
        | some triple2 =>
          let verified2 := verifier.verifyTriple triple2 c2 z2
          some (verified1 && verified2)

/-! ## Protocol runner -/

/-- Lines 15 to 22 of `ProvePartialDLogKnowledge`: the exchange between a prover and a
verifier, for a given public target `b1`. The argument `challenge` is the value drawn by
the verifier. -/
def proofExchange (prover : PartialDLogProver) (verifier : PartialDLogVerifier)
    (secret1 : Int) (a1 b1 a2 b2 : Nat) (r1 c2 z2 ordDraw challenge : Nat) : Option Bool :=
  match prover.GetProofRandomData secret1 a1 b1 a2 b2 r1 c2 z2 ordDraw with
  | none => none
  | some (prover, triple1, triple2) =>
    let verifier := verifier.SetProofRandomData triple1 triple2
    let (verifier, challenge) := verifier.GetChallenge challenge
    match prover.GetProofData challenge with
    | none => none
    | some (c1, z1, c2, z2) => verifier.Verify c1 z1 c2 z2

/-- Function `ProvePartialDLogKnowledge`. The secret is an exponent of `Exponentiate` here, a
natural number. -/
def ProvePartialDLogKnowledge (dlog : ZpDLog) (secret1 a1 a2 b2 : Nat)
    (r1 c2 z2 ordDraw challenge : Nat) : Option Bool :=
  let prover := NewPartialDLogProver dlog
  let verifier := NewPartialDLogVerifier dlog
  let b1 := prover.DLog.Exponentiate a1 secret1
  proofExchange prover verifier (secret1 : Int) a1 b1 a2 b2 r1 c2 z2 ordDraw challenge

/-- What an observer of one exchange sees: the two triples in the order emitted by
`GetProofRandomData` on a fresh prover, the challenge, and the four values returned by
`GetProofData`. -/
def transcript (dlog : ZpDLog) (secret1 : Int) (a1 b1 a2 b2 : Nat)
    (r1 c2 z2 ordDraw challenge : Nat) :
    Option (Triple × Triple × Nat × (Nat × Nat × Nat × Nat)) :=
  match (NewPartialDLogProver dlog).GetProofRandomData secret1 a1 b1 a2 b2 r1 c2 z2 ordDraw with
  | none => none
  | some (prover, triple1, triple2) =>
    match prover.GetProofData challenge with
    | none => none
    | some response => some (triple1, triple2, challenge, response)

/-- The call of `Verify` with the verifier it leaves behind: the method assigns no field
of its receiver, so a call that returns leaves the receiver as it was. -/
def PartialDLogVerifier.VerifyCall (verifier : PartialDLogVerifier) (c1 z1 c2 z2 : Nat) :
    Option (PartialDLogVerifier × Bool) :=
  match verifier.Verify c1 z1 c2 z2 with
  | none => none
  | some verified => some (verifier, verified)

/-- The call of `GetProofData` with the prover it leaves behind: the method assigns no
field of its receiver and keeps no record of having been called. -/
def PartialDLogProver.GetProofDataCall (prover : PartialDLogProver) (challenge : Nat) :
    Option (PartialDLogProver × (Nat × Nat × Nat × Nat)) :=
  match prover.GetProofData challenge with
  | none => none
  | some response => some (prover, response)

/-! ## Failures with their kind -/

/-- The ways a call ends without a result. The source raises no error of its own: a call
fails only by a run-time panic of Go, on a `nil` pointer or on a zero modulus. The kind
`invalidState` is the error the spec names for a call out of sequence. -/
inductive Failure where
  | invalidState
  | nilDereference
  | divisionByZero
deriving DecidableEq

/-- Method `PartialDLogProver.GetProofData` with the kind of its failure: `Xor` dereferences
`c2`, `Mul` dereferences `secret1`, `Add` dereferences `r1`, and `Mod` divides by the
order of the subgroup. The field `z2` is treated as in `GetProofData`. -/
def PartialDLogProver.GetProofDataOutcome (prover : PartialDLogProver) (challenge : Nat) :
    Except Failure (Nat × Nat × Nat × Nat) :=
  match prover.c2 with
  | none => Except.error Failure.nilDereference
  | some c2 =>
    let c1 := c2 ^^^ challenge
    match prover.secret1 with
    | none => Except.error Failure.nilDereference
    | some secret1 =>
      match prover.r1 with
      | none => Except.error Failure.nilDereference
      | some r1 =>
        if prover.DLog.GetOrderOfSubgroup = 0 then Except.error Failure.divisionByZero
        else
          let z1 := (responseZ1 prover.DLog.GetOrderOfSubgroup c1 secret1 r1).toNat
          match prover.z2 with
          | none => Except.error Failure.nilDereference
          | some z2 =>
            if prover.ord = 0 then Except.ok (c1, z1, c2, z2)
            else Except.ok (c2, z2, c1, z1)

/-! ## The verifier on a heap of `big.Int` objects -/

/-- The heap of `big.Int` objects: the value of the object at each address allocated so
far. A `*big.Int` that is not `nil` is an address. -/
structure Heap where
  cells : List Nat
deriving DecidableEq

/-- Reading the object at an address; `none` where no object is allocated. -/
def Heap.read (h : Heap) (p : Nat) : Option Nat := h.cells[p]?

/-- The expression `new(big.Int)`: a fresh object holding 0, at the next address. -/
def Heap.newInt (h : Heap) : Heap × Nat := (⟨h.cells ++ [0]⟩, h.cells.length)

/-- A `big.Int` method storing its result in its receiver `p`: the object at `p` is
overwritten. -/
def Heap.set (h : Heap) (p v : Nat) : Option Heap :=
  if p < h.cells.length then some ⟨h.cells.set p v⟩ else none

/-- The heap with one more object, holding `v`: what `new(big.Int)` followed by a method
storing `v` in the fresh receiver leaves. -/
def Heap.push (h : Heap) (v : Nat) : Heap := ⟨h.cells ++ [v]⟩

/-- The expression `new(big.Int).Xor(x, y)`: `Xor` reads `x` and `y`, stores the result in
its receiver, the fresh object, and returns the receiver. -/
def Heap.newXor (h : Heap) (x y : Nat) : Option (Heap × Nat) :=
  match h.read x, h.read y with
  | some xv, some yv =>
    let (h1, c) := h.newInt
    match h1.set c (xv ^^^ yv) with
    | none => none
    | some h2 => some (h2, c)
  | _, _ => none

/-- The test `x.Cmp(y) == 0`: reads both objects. -/
def Heap.cmpEq (h : Heap) (x y : Nat) : Option Bool :=
  match h.read x, h.read y with
  | some xv, some yv => some (decide (xv = yv))
  | _, _ => none

/-- Modelled from the spec: `exponentiate(base, exponent) -> result` of the Group
Interface on objects: it reads its two arguments and returns a fresh object holding the
result. -/
def ZpDLog.ExponentiateRef (dlog : ZpDLog) (h : Heap) (x y : Nat) : Option (Heap × Nat) :=
  match h.read x, h.read y with
  | some xv, some yv =>
    let (h1, r) := h.newInt
    match h1.set r (dlog.Exponentiate xv yv) with
    | none => none
    | some h2 => some (h2, r)
  | _, _ => none

/-- Modelled from the spec: `multiply(x, y) -> result` of the Group Interface on objects:
it reads its two arguments and returns a fresh object holding the result. -/
def ZpDLog.MultiplyRef (dlog : ZpDLog) (h : Heap) (x y : Nat) : Option (Heap × Nat) :=
  match h.read x, h.read y with
  | some xv, some yv =>
    let (h1, r) := h.newInt
    match h1.set r (dlog.Multiply xv yv) with
    | none => none
    | some h2 => some (h2, r)
  | _, _ => none

/-- Modelled from the spec: `types.Triple` in memory, the addresses of its fields `A`,
`B`, `C`. -/
structure TripleRef where
  A : Nat
  B : Nat
  C : Nat
deriving DecidableEq

/-- The struct `PartialDLogVerifier` in memory: each field is a pointer, `none` for
`nil`. -/
structure VerifierRef where
  DLog : ZpDLog
  triple1 : Option TripleRef
  triple2 : Option TripleRef
  challenge : Option Nat
deriving DecidableEq

/-- The values a triple points to. -/
def TripleRef.load (triple : TripleRef) (h : Heap) : Option Triple :=
  match h.read triple.A, h.read triple.B, h.read triple.C with
  | some a, some b, some c => some ⟨a, b, c⟩
  | _, _, _ => none

/-- The values a verifier points to: its stored triples and its stored challenge. -/
def VerifierRef.load (verifier : VerifierRef) (h : Heap) : PartialDLogVerifier :=
  { DLog := verifier.DLog,
    triple1 := verifier.triple1.bind (fun t => t.load h),
    triple2 := verifier.triple2.bind (fun t => t.load h),
    challenge := verifier.challenge.bind (fun p => h.read p) }

/-- Every pointer of the triple is the address of an allocated object. -/
def TripleRef.allocated (triple : TripleRef) (h : Heap) : Bool :=
  decide (triple.A < h.cells.length) && decide (triple.B < h.cells.length) &&
    decide (triple.C < h.cells.length)

/-- Every pointer of the verifier that is not `nil` is the address of an allocated
object. -/
def VerifierRef.allocated (verifier : VerifierRef) (h : Heap) : Bool :=
  verifier.triple1.all (fun t => t.allocated h) &&
    verifier.triple2.all (fun t => t.allocated h) &&
    verifier.challenge.all (fun p => decide (p < h.cells.length))

/-- Method `PartialDLogVerifier.verifyTriple` on the heap: the two results of
`Exponentiate` and the result of `Multiply` are fresh objects, and `Cmp` reads. -/
def VerifierRef.verifyTriple (verifier : VerifierRef) (h : Heap) (triple : TripleRef)
    (challenge z : Nat) : Option (Heap × Bool) :=
  match verifier.DLog.ExponentiateRef h triple.B z with
  | none => none
  | some (h, left) =>
    match verifier.DLog.ExponentiateRef h triple.C challenge with
    | none => none
    | some (h, r1) =>
      match verifier.DLog.MultiplyRef h r1 triple.A with
      | none => none
      | some (h, right) =>
        match h.cmpEq left right with
        | none => none
        | some equal => some (h, equal)

/-- Method `PartialDLogVerifier.Verify` on the heap, statement by statement: the heap and
the verifier after the call, and the boolean returned. -/
def VerifierRef.Verify (verifier : VerifierRef) (h : Heap) (c1 z1 c2 z2 : Nat) :
    Option (Heap × VerifierRef × Bool) :=
  match h.newXor c1 c2 with
  | none => none
  | some (h, c) =>
    match verifier.challenge with
    | none => none
    | some challenge =>
      match h.cmpEq c challenge with
      | none => none
      | some equal =>
        if equal = false then some (h, verifier, false)
        else
          match verifier.triple1 with
          | none => none
          | some triple1 =>
            match verifier.verifyTriple h triple1 c1 z1 with
            | none => none
            | some (h, verified1) =>
              match verifier.triple2 with
              | none => none
              | some triple2 =>
                match verifier.verifyTriple h triple2 c2 z2 with
                | none => none
                | some (h, verified2) => some (h, verifier, verified1 && verified2)

/-! ## Arithmetic of the group operations -/

theorem pow_mod_order {p q a : Nat} (h : a ^ q % p = 1 % p) (n : Nat) :
    a ^ n % p = a ^ (n % q) % p := by
  have hq : a ^ q ≡ 1 [MOD p] := h
  have key : (a ^ q) ^ (n / q) * a ^ (n % q) ≡ 1 ^ (n / q) * a ^ (n % q) [MOD p] :=
    (hq.pow _).mul_right _
  rw [one_pow, one_mul, ← pow_mul, ← pow_add, Nat.div_add_mod] at key
  exact key

/-- A power of a base of order dividing `q > 0` is invertible modulo `P`. -/
theorem pow_invertible {P q a : Nat} (hq : 0 < q) (h : a ^ q % P = 1 % P) (r : Nat) :
    a ^ r % P * a ^ (r * (q - 1)) ≡ 1 [MOD P] := by
  have e : a ^ r * a ^ (r * (q - 1)) = (a ^ q) ^ r := by
    rw [← pow_add, ← pow_mul]
    congr 1
    have : q = (q - 1) + 1 := by omega
    nth_rewrite 2 [this]
    ring
  have h1 : a ^ r % P * a ^ (r * (q - 1)) ≡ a ^ r * a ^ (r * (q - 1)) [MOD P] :=
    (Nat.mod_modEq _ _).mul_right _
  rw [e] at h1
  have h2 : (a ^ q) ^ r ≡ 1 ^ r [MOD P] := Nat.ModEq.pow r h
  rw [one_pow] at h2
  exact h1.trans h2

theorem Inverse_spec {dlog : ZpDLog} {x y : Nat} (h : dlog.Inverse x = some y) :
    y < dlog.P ∧ x * y % dlog.P = 1 % dlog.P := by
  unfold ZpDLog.Inverse at h
  have h1 := List.find?_some h
  have h2 := List.mem_of_find?_eq_some h
  exact ⟨List.mem_range.mp h2, by simpa using h1⟩

theorem Inverse_isSome {dlog : ZpDLog} {x : Nat} (hP : 0 < dlog.P)
    (hx : Nat.Coprime x dlog.P) : ∃ y, dlog.Inverse x = some y := by
  cases hfind : dlog.Inverse x with
  | some y => exact ⟨y, rfl⟩
  | none =>
    exfalso
    unfold ZpDLog.Inverse at hfind
    rw [List.find?_eq_none] at hfind
    rcases Nat.lt_or_ge 1 dlog.P with h1 | h1
    · obtain ⟨m, hm⟩ := Nat.exists_mul_emod_eq_one_of_coprime hx h1
      have hmem : m % dlog.P ∈ List.range dlog.P := List.mem_range.mpr (Nat.mod_lt _ hP)
      have := hfind _ hmem
      apply this
      simp only [decide_eq_true_eq]
      rw [Nat.mul_mod, Nat.mod_mod, ← Nat.mul_mod, hm, Nat.mod_eq_of_lt h1]
    · have hP1 : dlog.P = 1 := by omega
      have hmem : 0 ∈ List.range dlog.P := List.mem_range.mpr hP
      have := hfind _ hmem
      apply this
      simp [hP1]

theorem coprime_pow_mod {p b : Nat} (hp : p.Prime) (hb : ¬ p ∣ b) (c : Nat) :
    Nat.Coprime (b ^ c % p) p := by
  have h1 : Nat.Coprime b p := ((Nat.Prime.coprime_iff_not_dvd hp).mpr hb).symm
  have h2 : Nat.Coprime (b ^ c) p := Nat.Coprime.pow_left c h1
  rw [Nat.Coprime, ← Nat.gcd_rec, Nat.gcd_comm]
  exact h2

theorem responseZ1_natCast (q c1 s r1 : Nat) :
    (responseZ1 q c1 (s : Int) r1).toNat = (c1 * s + r1) % q := by
  unfold responseZ1
  have h : ((c1 : Int) * (s : Int) + (r1 : Int)) % (q : Int) =
      (((c1 * s + r1) % q : Nat) : Int) := by
    push_cast
    rfl
  rw [h, Int.toNat_natCast]

/-- The check of one triple, as a congruence. -/
theorem verifyTriple_iff (verifier : PartialDLogVerifier) (triple : Triple) (c z : Nat) :
    verifier.verifyTriple triple c z = true ↔
      triple.B ^ z ≡ triple.A * triple.C ^ c [MOD verifier.DLog.P] := by
  unfold PartialDLogVerifier.verifyTriple ZpDLog.Exponentiate ZpDLog.Multiply
  simp only [decide_eq_true_eq]
  have h : triple.C ^ c % verifier.DLog.P * triple.A ≡ triple.A * triple.C ^ c
      [MOD verifier.DLog.P] := by
    rw [mul_comm]
    exact (Nat.mod_modEq _ _).mul_left _
  constructor
  · intro hl
    have hl2 : triple.B ^ z ≡ triple.C ^ c % verifier.DLog.P * triple.A
        [MOD verifier.DLog.P] := hl
    exact hl2.trans h
  · intro hr
    exact hr.trans h.symm

/-- The real branch passes the check when the base has order dividing `q`. -/
theorem verifyTriple_real (verifier : PartialDLogVerifier) (a r c s : Nat)
    (h : a ^ verifier.DLog.OrderOfSubgroup % verifier.DLog.P = 1 % verifier.DLog.P) :
    verifier.verifyTriple
      (NewTriple (verifier.DLog.Exponentiate a r) a (verifier.DLog.Exponentiate a s)) c
      ((c * s + r) % verifier.DLog.OrderOfSubgroup) = true := by
  rw [verifyTriple_iff]
  simp only [NewTriple, ZpDLog.Exponentiate]
  have h1 : a ^ ((c * s + r) % verifier.DLog.OrderOfSubgroup) ≡ a ^ (c * s + r)
      [MOD verifier.DLog.P] := (pow_mod_order h (c * s + r)).symm
  have h2 : a ^ r % verifier.DLog.P * (a ^ s % verifier.DLog.P) ^ c ≡ a ^ r * (a ^ s) ^ c
      [MOD verifier.DLog.P] :=
    (Nat.mod_modEq _ _).mul ((Nat.mod_modEq _ _).pow c)
  have h3 : a ^ r * (a ^ s) ^ c = a ^ (c * s + r) := by
    rw [← pow_mul, ← pow_add]
    congr 1
    ring
  rw [h3] at h2
  exact h1.trans h2.symm

/-- The simulated branch passes the check, whatever the base and the target are. -/
theorem verifyTriple_simulated (verifier : PartialDLogVerifier) (a b c z inv : Nat)
    (h : verifier.DLog.Inverse (verifier.DLog.Exponentiate b c) = some inv) :
    verifier.verifyTriple
      (NewTriple (verifier.DLog.Multiply (verifier.DLog.Exponentiate a z) inv) a b) c z
      = true := by
  rw [verifyTriple_iff]
  have hinv := (Inverse_spec h).2
  simp only [NewTriple, ZpDLog.Exponentiate, ZpDLog.Multiply] at hinv ⊢
  have h1 : b ^ c * inv ≡ 1 [MOD verifier.DLog.P] := by
    have : b ^ c % verifier.DLog.P * inv ≡ 1 [MOD verifier.DLog.P] := hinv
    exact ((Nat.mod_modEq _ _).mul_right inv).symm.trans this
  have h2 : a ^ z % verifier.DLog.P * inv % verifier.DLog.P * b ^ c ≡ a ^ z * inv * b ^ c
      [MOD verifier.DLog.P] :=
    ((Nat.mod_modEq _ _).trans ((Nat.mod_modEq _ _).mul_right inv)).mul_right _
  have h3 : a ^ z * inv * b ^ c = a ^ z * (b ^ c * inv) := by ring
  rw [h3] at h2
  have h4 : a ^ z * (b ^ c * inv) ≡ a ^ z * 1 [MOD verifier.DLog.P] := h1.mul_left _
  rw [mul_one] at h4
  exact (h2.trans h4).symm

/-- The outcome of `GetProofRandomData` once the inverse of `b2^c2` is known. -/
theorem GetProofRandomData_of_inverse (prover : PartialDLogProver) (secret1 : Int)
    (a1 b1 a2 b2 r1 c2 z2 ordDraw inv : Nat)
    (h : prover.DLog.Inverse (prover.DLog.Exponentiate b2 c2) = some inv) :
    prover.GetProofRandomData secret1 a1 b1 a2 b2 r1 c2 z2 ordDraw =
      if ordDraw = 0 then
        some ({ DLog := prover.DLog, secret1 := some secret1, a1 := some a1, a2 := some a2,
                r1 := some r1, c2 := some c2, z2 := some z2, ord := 0 },
              NewTriple (prover.DLog.Exponentiate a1 r1) a1 b1,
              NewTriple (prover.DLog.Multiply (prover.DLog.Exponentiate a2 z2) inv) a2 b2)
      else
        some ({ DLog := prover.DLog, secret1 := some secret1, a1 := some a1, a2 := some a2,
                r1 := some r1, c2 := some c2, z2 := some z2, ord := 1 },
              NewTriple (prover.DLog.Multiply (prover.DLog.Exponentiate a2 z2) inv) a2 b2,
              NewTriple (prover.DLog.Exponentiate a1 r1) a1 b1) := by
  simp only [PartialDLogProver.GetProofRandomData, h]

/-- The outcome of `GetProofData` on a prover whose fields are set. -/
theorem GetProofData_of_set (dlog : ZpDLog) (secret1 : Int) (a1 a2 : Option Nat)
    (r1 c2 z2 ord challenge : Nat) (hq : 0 < dlog.OrderOfSubgroup) :
    PartialDLogProver.GetProofData
      { DLog := dlog, secret1 := some secret1, a1 := a1, a2 := a2, r1 := some r1,
        c2 := some c2, z2 := some z2, ord := ord } challenge =
      if ord = 0 then
        some (c2 ^^^ challenge,
          (responseZ1 dlog.OrderOfSubgroup (c2 ^^^ challenge) secret1 r1).toNat, c2, z2)
      else
        some (c2, z2, c2 ^^^ challenge,
          (responseZ1 dlog.OrderOfSubgroup (c2 ^^^ challenge) secret1 r1).toNat) := by
  simp only [PartialDLogProver.GetProofData, ZpDLog.GetOrderOfSubgroup]
  rw [if_neg (by omega)]

theorem xor_split (c2 c : Nat) : (c2 ^^^ c) ^^^ c2 = c ∧ c2 ^^^ (c2 ^^^ c) = c := by
  constructor
  · rw [Nat.xor_comm c2 c, Nat.xor_assoc, Nat.xor_self, Nat.xor_zero]
  · rw [← Nat.xor_assoc, Nat.xor_self, Nat.zero_xor]

/-- The exchange on fresh instances, once the inverse of `b2^c2` is known: the verifier
checks the pairs against the triples in the order the prover has emitted them. -/
theorem proofExchange_of_inverse (dlog : ZpDLog) (secret1 : Int)
    (a1 b1 a2 b2 r1 c2 z2 ordDraw c inv : Nat) (hq : 0 < dlog.OrderOfSubgroup)
    (h : dlog.Inverse (dlog.Exponentiate b2 c2) = some inv) :
    proofExchange (NewPartialDLogProver dlog) (NewPartialDLogVerifier dlog) secret1
        a1 b1 a2 b2 r1 c2 z2 ordDraw c =
      some ((NewPartialDLogVerifier dlog).verifyTriple
              (NewTriple (dlog.Exponentiate a1 r1) a1 b1) (c2 ^^^ c)
              (responseZ1 dlog.OrderOfSubgroup (c2 ^^^ c) secret1 r1).toNat &&
            (NewPartialDLogVerifier dlog).verifyTriple
              (NewTriple (dlog.Multiply (dlog.Exponentiate a2 z2) inv) a2 b2) c2 z2) := by
  have hx := xor_split c2 c
  unfold proofExchange
  rw [GetProofRandomData_of_inverse (NewPartialDLogProver dlog) secret1 a1 b1 a2 b2 r1 c2 z2
    ordDraw inv h]
  by_cases ho : ordDraw = 0
  · simp only [ho, if_true, NewPartialDLogProver, PartialDLogVerifier.GetChallenge,
      PartialDLogVerifier.SetProofRandomData, NewPartialDLogVerifier]
    rw [GetProofData_of_set dlog secret1 _ _ r1 c2 z2 0 c hq]
    simp only [if_true, PartialDLogVerifier.Verify, hx.1, ne_eq, not_true_eq_false, if_false]
    rfl
  · simp only [ho, if_false, NewPartialDLogProver, PartialDLogVerifier.GetChallenge,
      PartialDLogVerifier.SetProofRandomData, NewPartialDLogVerifier]
    rw [GetProofData_of_set dlog secret1 _ _ r1 c2 z2 1 c hq]
    simp only [one_ne_zero, if_false, PartialDLogVerifier.Verify, hx.2, ne_eq,
      not_true_eq_false]
    rw [Bool.and_comm]
    rfl

/-! ## The claims -/

/-- C1 (completeness). For a prime modulus `p`, a subgroup order `q > 0`, a base `a1` with
`a1^q = 1 (mod p)`, any secret `secret1 >= 0`, any `a2`, any `b2` not divisible by `p` and
any outcome of the draws `r1, c2, z2`, of the order draw and of the challenge (in range or
not), `ProvePartialDLogKnowledge` runs the exchange with `b1 = a1^secret1 mod p` and
returns `true`. -/
theorem ProvePartialDLogKnowledge_complete (dlog : ZpDLog)
    (secret1 a1 a2 b2 r1 c2 z2 ordDraw c : Nat)
    (hp : dlog.P.Prime) (hq : 0 < dlog.OrderOfSubgroup)
    (ha1 : a1 ^ dlog.OrderOfSubgroup % dlog.P = 1) (hb2 : ¬ dlog.P ∣ b2) :
    ProvePartialDLogKnowledge dlog secret1 a1 a2 b2 r1 c2 z2 ordDraw c =
        proofExchange (NewPartialDLogProver dlog) (NewPartialDLogVerifier dlog) secret1
          a1 (a1 ^ secret1 % dlog.P) a2 b2 r1 c2 z2 ordDraw c ∧
      ProvePartialDLogKnowledge dlog secret1 a1 a2 b2 r1 c2 z2 ordDraw c = some true := by
  refine ⟨rfl, ?_⟩
  obtain ⟨inv, hinv⟩ := Inverse_isSome hp.pos (coprime_pow_mod hp hb2 c2)
  have ha : a1 ^ dlog.OrderOfSubgroup % dlog.P = 1 % dlog.P := by
    rw [ha1, Nat.mod_eq_of_lt hp.one_lt]
  unfold ProvePartialDLogKnowledge
  simp only []
  rw [show (NewPartialDLogProver dlog).DLog = dlog from rfl,
    proofExchange_of_inverse dlog secret1 a1 _ a2 b2 r1 c2 z2 ordDraw c inv hq hinv,
    responseZ1_natCast]
  have h1 := verifyTriple_real (NewPartialDLogVerifier dlog) a1 r1 (c2 ^^^ c) secret1 ha
  have h2 := verifyTriple_simulated (NewPartialDLogVerifier dlog) a2 b2 c2 z2 inv hinv
  simp only [NewPartialDLogVerifier] at h1 h2 ⊢
  rw [h1, h2]
  rfl

theorem ProvePartialDLogKnowledge_complete_witness :
    Nat.Prime 23 ∧ 0 < 11 ∧ 4 ^ 11 % 23 = 1 ∧ ¬ 23 ∣ 9 ∧
      ProvePartialDLogKnowledge ⟨23, 11⟩ 3 4 2 9 5 8 7 1 3 = some true :=
  ⟨by norm_num, by decide, by decide, by decide,
    (ProvePartialDLogKnowledge_complete ⟨23, 11⟩ 3 4 2 9 5 8 7 1 3 (by norm_num) (by decide)
      (by decide) (by decide)).2⟩

/-- The prover left by `GetProofRandomData` has its secret and its three draws set. -/
theorem GetProofRandomData_state (prover0 prover : PartialDLogProver) (secret1 : Int)
    (a1 b1 a2 b2 r1 c2 z2 ordDraw : Nat) (tA tB : Triple)
    (h : prover0.GetProofRandomData secret1 a1 b1 a2 b2 r1 c2 z2 ordDraw
      = some (prover, tA, tB)) :
    prover = { DLog := prover0.DLog, secret1 := some secret1, a1 := some a1,
               a2 := some a2, r1 := some r1, c2 := some c2, z2 := some z2,
               ord := if ordDraw = 0 then 0 else 1 } := by
  cases hinv : prover0.DLog.Inverse (prover0.DLog.Exponentiate b2 c2) with
  | none => simp [PartialDLogProver.GetProofRandomData, hinv] at h
  | some inv =>
    rw [GetProofRandomData_of_inverse prover0 secret1 a1 b1 a2 b2 r1 c2 z2 ordDraw inv hinv] at h
    by_cases ho : ordDraw = 0
    · simp only [ho, if_true, Option.some.injEq, Prod.mk.injEq] at h ⊢
      exact h.1.symm
    · simp only [ho, if_false, Option.some.injEq, Prod.mk.injEq] at h ⊢
      exact h.1.symm

/-- The two challenges returned by `GetProofData` combine by XOR to the challenge given. -/
theorem GetProofData_xor (prover : PartialDLogProver) (c u1 w1 u2 w2 : Nat)
    (h : prover.GetProofData c = some (u1, w1, u2, w2)) : u1 ^^^ u2 = c := by
  unfold PartialDLogProver.GetProofData at h
  have hx := xor_split
  split at h
  · split at h
    · simp at h
    · split at h
      · simp only [Option.some.injEq, Prod.mk.injEq] at h
        rw [← h.1, ← h.2.2.1]
        exact (hx _ _).1
      · simp only [Option.some.injEq, Prod.mk.injEq] at h
        rw [← h.1, ← h.2.2.1]
        exact (hx _ _).2
  · simp at h

/-- C2 (binding check enforcement). Let `prover` be the state left by
`GetProofRandomData` and `verifier` any verifier whose stored challenge is `c`. For a
challenge `c'` different from `c`, `GetProofData c'` returns four values (the subgroup
order being positive) and `Verify` applied to the four values it returns is `false`,
whatever the triples, the secret and the order draw are. -/
theorem Verify_rejects_tampered_challenge (prover0 prover : PartialDLogProver)
    (verifier : PartialDLogVerifier) (secret1 : Int)
    (a1 b1 a2 b2 r1 c2 z2 ordDraw c c' : Nat) (tA tB : Triple)
    (hinit : prover0.GetProofRandomData secret1 a1 b1 a2 b2 r1 c2 z2 ordDraw
      = some (prover, tA, tB))
    (hch : verifier.challenge = some c) (hne : c' ≠ c) :
    (0 < prover0.DLog.OrderOfSubgroup → (prover.GetProofData c').isSome = true) ∧
      ∀ u1 w1 u2 w2 : Nat, prover.GetProofData c' = some (u1, w1, u2, w2) →
        verifier.Verify u1 w1 u2 w2 = some false := by
  constructor
  · intro hq
    rw [GetProofRandomData_state prover0 prover secret1 a1 b1 a2 b2 r1 c2 z2 ordDraw tA tB
      hinit, GetProofData_of_set _ _ _ _ _ _ _ _ _ hq]
    split <;> rfl
  · intro u1 w1 u2 w2 h
    have hx := GetProofData_xor prover c' u1 w1 u2 w2 h
    unfold PartialDLogVerifier.Verify
    simp only [hch, hx, ne_eq, hne, not_false_eq_true, if_true]

theorem Verify_rejects_tampered_challenge_witness :
    (0 < 11 → (PartialDLogProver.GetProofData
        { DLog := ⟨23, 11⟩, secret1 := some 3, a1 := some 4, a2 := some 2, r1 := some 5,
          c2 := some 8, z2 := some 7, ord := 1 } 4).isSome = true) ∧
      ∀ u1 w1 u2 w2 : Nat, PartialDLogProver.GetProofData
        { DLog := ⟨23, 11⟩, secret1 := some 3, a1 := some 4, a2 := some 2, r1 := some 5,
          c2 := some 8, z2 := some 7, ord := 1 } 4 = some (u1, w1, u2, w2) →
        PartialDLogVerifier.Verify
          { DLog := ⟨23, 11⟩, triple1 := some ⟨1, 2, 9⟩, triple2 := some ⟨12, 4, 18⟩,
            challenge := some 3 } u1 w1 u2 w2 = some false :=
  Verify_rejects_tampered_challenge (NewPartialDLogProver ⟨23, 11⟩) _ _ 3 4 18 2 9 5 8 7 1 3 4
    ⟨1, 2, 9⟩ ⟨12, 4, 18⟩ (by decide) rfl (by decide)

/-- The outcome of `Verify` on a verifier whose fields are set. -/
theorem Verify_of_set (verifier : PartialDLogVerifier) (t1 t2 : Triple)
    (c c1 z1 c2 z2 : Nat) (h1 : verifier.triple1 = some t1) (h2 : verifier.triple2 = some t2)
    (hc : verifier.challenge = some c) :
    verifier.Verify c1 z1 c2 z2 =
      some (decide (c1 ^^^ c2 = c) && (verifier.verifyTriple t1 c1 z1 &&
        verifier.verifyTriple t2 c2 z2)) := by
  unfold PartialDLogVerifier.Verify
  simp only [h1, h2, hc, ne_eq]
  by_cases hx : c1 ^^^ c2 = c <;> simp [hx]

/-- C3. On a verifier holding the triples `(x1, a1, b1)`, `(x2, a2, b2)` (commitment, base,
target, in the fields `A`, `B`, `C`) and the challenge `c`, `Verify c1 z1 c2 z2` returns
`true` if and only if `c1 XOR c2 = c`, `a1^z1 = x1 * b1^c1 (mod p)` and
`a2^z2 = x2 * b2^c2 (mod p)`; when one of the three fails it returns `false`. -/
theorem Verify_iff (dlog : ZpDLog) (x1 a1 b1 x2 a2 b2 c c1 z1 c2 z2 : Nat) :
    (PartialDLogVerifier.Verify
        { DLog := dlog, triple1 := some (NewTriple x1 a1 b1),
          triple2 := some (NewTriple x2 a2 b2), challenge := some c } c1 z1 c2 z2 = some true
      ↔ (c1 ^^^ c2 = c ∧ a1 ^ z1 ≡ x1 * b1 ^ c1 [MOD dlog.P] ∧
          a2 ^ z2 ≡ x2 * b2 ^ c2 [MOD dlog.P])) ∧
    (¬ (c1 ^^^ c2 = c ∧ a1 ^ z1 ≡ x1 * b1 ^ c1 [MOD dlog.P] ∧
          a2 ^ z2 ≡ x2 * b2 ^ c2 [MOD dlog.P]) →
      PartialDLogVerifier.Verify
        { DLog := dlog, triple1 := some (NewTriple x1 a1 b1),
          triple2 := some (NewTriple x2 a2 b2), challenge := some c } c1 z1 c2 z2
        = some false) := by
  generalize hv : PartialDLogVerifier.mk dlog (some (NewTriple x1 a1 b1))
    (some (NewTriple x2 a2 b2)) (some c) = v
  have hP : v.DLog.P = dlog.P := by rw [← hv]
  have e1 := verifyTriple_iff v (NewTriple x1 a1 b1) c1 z1
  have e2 := verifyTriple_iff v (NewTriple x2 a2 b2) c2 z2
  simp only [NewTriple, hP] at e1 e2
  rw [Verify_of_set v (NewTriple x1 a1 b1) (NewTriple x2 a2 b2) c c1 z1 c2 z2
    (by rw [← hv]) (by rw [← hv]) (by rw [← hv])]
  simp only [NewTriple, ← e1, ← e2, Option.some.injEq, Bool.and_eq_true, decide_eq_true_eq]
  refine ⟨trivial, ?_⟩
  intro h
  by_cases hx : c1 ^^^ c2 = c
  · cases h1 : v.verifyTriple ⟨x1, a1, b1⟩ c1 z1 <;>
      cases h2 : v.verifyTriple ⟨x2, a2, b2⟩ c2 z2 <;> simp_all
  · simp [hx]

/-- An inverse modulo `P` cancels: a residue is determined by its product with an
invertible element. -/
theorem modEq_of_mul_invertible {P u inv x y : Nat} (hu : u * inv ≡ 1 [MOD P])
    (h : y * u ≡ x * u [MOD P]) : y ≡ x [MOD P] := by
  have h1 : y * u * inv ≡ x * u * inv [MOD P] := h.mul_right inv
  have hy : y * u * inv ≡ y [MOD P] := by
    have := hu.mul_left y
    rwa [mul_one, ← mul_assoc] at this
  have hx : x * u * inv ≡ x [MOD P] := by
    have := hu.mul_left x
    rwa [mul_one, ← mul_assoc] at this
  exact (hy.symm.trans h1).trans hx

/-- C4 (simulation of the unknown branch). For a prime modulus `p` and `b2` not divisible
by `p`, `GetProofRandomData` returns, and the triple it builds for the second branch is
`(x2, a2, b2)` with `x2 = a2^z2 * (b2^c2)^(-1) mod p`; this `x2` is a residue modulo `p`,
satisfies `a2^z2 = x2 * b2^c2 (mod p)`, and every `y` that satisfies the equation is
congruent to `x2`; the check of `(x2, a2, b2)` with `(c2, z2)` passes on every verifier of
the same group, whatever its stored challenge is. -/
theorem simulated_commitment (prover : PartialDLogProver) (secret1 : Int)
    (a1 b1 a2 b2 r1 c2 z2 ordDraw : Nat)
    (hp : prover.DLog.P.Prime) (hb2 : ¬ prover.DLog.P ∣ b2) :
    ∃ (prover1 : PartialDLogProver) (inv x2 : Nat),
      prover.DLog.Inverse (prover.DLog.Exponentiate b2 c2) = some inv ∧
      x2 = prover.DLog.Multiply (prover.DLog.Exponentiate a2 z2) inv ∧
      prover.GetProofRandomData secret1 a1 b1 a2 b2 r1 c2 z2 ordDraw =
        some (prover1,
          if ordDraw = 0 then
            (NewTriple (prover.DLog.Exponentiate a1 r1) a1 b1, NewTriple x2 a2 b2)
          else (NewTriple x2 a2 b2, NewTriple (prover.DLog.Exponentiate a1 r1) a1 b1)) ∧
      x2 < prover.DLog.P ∧
      a2 ^ z2 ≡ x2 * b2 ^ c2 [MOD prover.DLog.P] ∧
      (∀ y : Nat, a2 ^ z2 ≡ y * b2 ^ c2 [MOD prover.DLog.P] → y ≡ x2 [MOD prover.DLog.P]) ∧
      (∀ y : Nat, y < prover.DLog.P → a2 ^ z2 ≡ y * b2 ^ c2 [MOD prover.DLog.P] → y = x2) ∧
      ∀ verifier : PartialDLogVerifier, verifier.DLog = prover.DLog →
        verifier.verifyTriple (NewTriple x2 a2 b2) c2 z2 = true := by
  obtain ⟨inv, hinv⟩ := Inverse_isSome hp.pos (coprime_pow_mod hp hb2 c2)
  have hlt : prover.DLog.Multiply (prover.DLog.Exponentiate a2 z2) inv < prover.DLog.P :=
    Nat.mod_lt _ hp.pos
  have hu : b2 ^ c2 * inv ≡ 1 [MOD prover.DLog.P] := by
    have h1 : prover.DLog.Exponentiate b2 c2 * inv ≡ 1 [MOD prover.DLog.P] :=
      (Inverse_spec hinv).2
    exact ((Nat.mod_modEq _ _).mul_right inv).symm.trans h1
  have hver : ∀ verifier : PartialDLogVerifier, verifier.DLog = prover.DLog →
      verifier.verifyTriple
        (NewTriple (prover.DLog.Multiply (prover.DLog.Exponentiate a2 z2) inv) a2 b2) c2 z2
        = true := by
    intro verifier hv
    rw [← hv] at hinv ⊢
    exact verifyTriple_simulated verifier a2 b2 c2 z2 inv hinv
  have heq : a2 ^ z2 ≡ prover.DLog.Multiply (prover.DLog.Exponentiate a2 z2) inv * b2 ^ c2
      [MOD prover.DLog.P] := by
    have := (verifyTriple_iff ⟨prover.DLog, none, none, none⟩ _ c2 z2).mp
      (hver ⟨prover.DLog, none, none, none⟩ rfl)
    simpa [NewTriple] using this
  have huniq : ∀ y : Nat, a2 ^ z2 ≡ y * b2 ^ c2 [MOD prover.DLog.P] →
      y ≡ prover.DLog.Multiply (prover.DLog.Exponentiate a2 z2) inv [MOD prover.DLog.P] :=
    fun y hy => modEq_of_mul_invertible hu (hy.symm.trans heq)
  refine ⟨PartialDLogProver.mk prover.DLog (some secret1) (some a1) (some a2) (some r1)
    (some c2) (some z2) (if ordDraw = 0 then 0 else 1), inv, _, hinv, rfl, ?_, hlt, heq,
    huniq, ?_, hver⟩
  · rw [GetProofRandomData_of_inverse prover secret1 a1 b1 a2 b2 r1 c2 z2 ordDraw inv hinv]
    by_cases ho : ordDraw = 0
    · simp only [ho, if_true]
    · simp only [ho, if_false]
  · intro y hy hmod
    have := huniq y hmod
    unfold Nat.ModEq at this
    rwa [Nat.mod_eq_of_lt hy, Nat.mod_eq_of_lt hlt] at this

theorem simulated_commitment_witness :
    Nat.Prime 23 ∧ ¬ 23 ∣ 9 ∧
    ∃ (prover1 : PartialDLogProver) (inv x2 : Nat),
      ZpDLog.Inverse ⟨23, 11⟩ (ZpDLog.Exponentiate ⟨23, 11⟩ 9 8) = some inv ∧
      x2 = ZpDLog.Multiply ⟨23, 11⟩ (ZpDLog.Exponentiate ⟨23, 11⟩ 2 7) inv ∧
      (NewPartialDLogProver ⟨23, 11⟩).GetProofRandomData 3 4 18 2 9 5 8 7 1 =
        some (prover1,
          if 1 = 0 then
            (NewTriple (ZpDLog.Exponentiate ⟨23, 11⟩ 4 5) 4 18, NewTriple x2 2 9)
          else (NewTriple x2 2 9, NewTriple (ZpDLog.Exponentiate ⟨23, 11⟩ 4 5) 4 18)) ∧
      x2 < 23 ∧
      2 ^ 7 ≡ x2 * 9 ^ 8 [MOD 23] ∧
      (∀ y : Nat, 2 ^ 7 ≡ y * 9 ^ 8 [MOD 23] → y ≡ x2 [MOD 23]) ∧
      (∀ y : Nat, y < 23 → 2 ^ 7 ≡ y * 9 ^ 8 [MOD 23] → y = x2) ∧
      ∀ verifier : PartialDLogVerifier, verifier.DLog = ⟨23, 11⟩ →
        verifier.verifyTriple (NewTriple x2 2 9) 8 7 = true :=
  ⟨by norm_num, by decide,
    simulated_commitment (NewPartialDLogProver ⟨23, 11⟩) 3 4 18 2 9 5 8 7 1
      (show Nat.Prime 23 by norm_num) (by decide)⟩

theorem responseZ1_nonneg (q c1 : Nat) (secret1 : Int) (r1 : Nat) (hq : 0 < q) :
    ((responseZ1 q c1 secret1 r1).toNat : Int) = responseZ1 q c1 secret1 r1 := by
  apply Int.toNat_of_nonneg
  unfold responseZ1
  exact Int.emod_nonneg _ (by omega)

/-- C5. On a prover state `(secret1, r1, c2, z2, ord)` of a group with `q > 0` and a
challenge `c`, `GetProofData` computes `c1 = c XOR c2` and `z1 = (r1 + c1 * secret1) mod q`
and returns `(c1, z1, c2, z2)` when `ord = 0` and `(c2, z2, c1, z1)` otherwise. Hence, on
the state left by `GetProofRandomData`, the pair at the position of the real triple
`(x1, a1, b1)` is `(c1, z1)` and the pair at the position of the simulated triple
`(x2, a2, b2)` is `(c2, z2)`, for either outcome of the order draw. -/
theorem GetProofData_spec (dlog : ZpDLog) (secret1 : Int) (r1 c2 z2 c : Nat)
    (hq : 0 < dlog.OrderOfSubgroup) :
    ∃ z1 : Nat,
      (z1 : Int) =
        ((r1 : Int) + ((c ^^^ c2 : Nat) : Int) * secret1) % (dlog.OrderOfSubgroup : Int) ∧
      (∀ (f1 f2 : Option Nat) (ord : Nat),
        PartialDLogProver.GetProofData (PartialDLogProver.mk dlog (some secret1) f1 f2
          (some r1) (some c2) (some z2) ord) c =
            some (if ord = 0 then (c ^^^ c2, z1, c2, z2) else (c2, z2, c ^^^ c2, z1))) ∧
      ∀ (prover0 prover : PartialDLogProver) (a1 b1 a2 b2 ordDraw : Nat) (tA tB : Triple),
        prover0.DLog = dlog →
        prover0.GetProofRandomData secret1 a1 b1 a2 b2 r1 c2 z2 ordDraw
          = some (prover, tA, tB) →
        ∃ x2 : Nat,
          (ordDraw = 0 ∧ prover.ord = 0 ∧
            tA = NewTriple (dlog.Exponentiate a1 r1) a1 b1 ∧ tB = NewTriple x2 a2 b2 ∧
            prover.GetProofData c = some (c ^^^ c2, z1, c2, z2)) ∨
          (ordDraw ≠ 0 ∧ prover.ord = 1 ∧
            tA = NewTriple x2 a2 b2 ∧ tB = NewTriple (dlog.Exponentiate a1 r1) a1 b1 ∧
            prover.GetProofData c = some (c2, z2, c ^^^ c2, z1)) := by
  have hz := responseZ1_nonneg dlog.OrderOfSubgroup (c2 ^^^ c) secret1 r1 hq
  refine ⟨(responseZ1 dlog.OrderOfSubgroup (c2 ^^^ c) secret1 r1).toNat, ?_, ?_, ?_⟩
  · rw [hz, Nat.xor_comm c c2]
    unfold responseZ1
    rw [add_comm]
  · intro f1 f2 ord
    rw [GetProofData_of_set dlog secret1 f1 f2 r1 c2 z2 ord c hq, Nat.xor_comm c c2]
    by_cases ho : ord = 0
    · simp only [ho, if_true]
    · simp only [ho, if_false]
  · intro prover0 prover a1 b1 a2 b2 ordDraw tA tB hd hinit
    have hst := GetProofRandomData_state prover0 prover secret1 a1 b1 a2 b2 r1 c2 z2 ordDraw
      tA tB hinit
    cases hinv : prover0.DLog.Inverse (prover0.DLog.Exponentiate b2 c2) with
    | none => simp [PartialDLogProver.GetProofRandomData, hinv] at hinit
    | some inv =>
      rw [GetProofRandomData_of_inverse prover0 secret1 a1 b1 a2 b2 r1 c2 z2 ordDraw inv
        hinv] at hinit
      refine ⟨prover0.DLog.Multiply (prover0.DLog.Exponentiate a2 z2) inv, ?_⟩
      rw [hst, hd, GetProofData_of_set dlog secret1 _ _ r1 c2 z2 _ c hq, Nat.xor_comm c c2]
      by_cases ho : ordDraw = 0
      · left
        simp only [ho, if_true, Option.some.injEq, Prod.mk.injEq] at hinit ⊢
        rw [hd] at hinit
        exact ⟨trivial, trivial, hinit.2.1.symm, hinit.2.2.symm, trivial⟩
      · right
        simp only [ho, if_false, Option.some.injEq, Prod.mk.injEq, one_ne_zero] at hinit ⊢
        rw [hd] at hinit
        exact ⟨ho, trivial, hinit.2.1.symm, hinit.2.2.symm, trivial⟩

theorem GetProofData_spec_witness :
    0 < 11 ∧ ∃ z1 : Nat,
      (z1 : Int) = ((5 : Nat) + ((3 ^^^ 8 : Nat) : Int) * 3) % ((11 : Nat) : Int) ∧
      (∀ (f1 f2 : Option Nat) (ord : Nat),
        PartialDLogProver.GetProofData (PartialDLogProver.mk ⟨23, 11⟩ (some 3) f1 f2
          (some 5) (some 8) (some 7) ord) 3 =
            some (if ord = 0 then (3 ^^^ 8, z1, 8, 7) else (8, 7, 3 ^^^ 8, z1))) ∧
      ∀ (prover0 prover : PartialDLogProver) (a1 b1 a2 b2 ordDraw : Nat) (tA tB : Triple),
        prover0.DLog = ⟨23, 11⟩ →
        prover0.GetProofRandomData 3 a1 b1 a2 b2 5 8 7 ordDraw = some (prover, tA, tB) →
        ∃ x2 : Nat,
          (ordDraw = 0 ∧ prover.ord = 0 ∧
            tA = NewTriple (ZpDLog.Exponentiate ⟨23, 11⟩ a1 5) a1 b1 ∧
            tB = NewTriple x2 a2 b2 ∧
            prover.GetProofData 3 = some (3 ^^^ 8, z1, 8, 7)) ∨
          (ordDraw ≠ 0 ∧ prover.ord = 1 ∧
            tA = NewTriple x2 a2 b2 ∧
            tB = NewTriple (ZpDLog.Exponentiate ⟨23, 11⟩ a1 5) a1 b1 ∧
            prover.GetProofData 3 = some (8, 7, 3 ^^^ 8, z1)) :=
  ⟨by decide, GetProofData_spec ⟨23, 11⟩ 3 5 8 7 3 (by decide)⟩

/-- C6. `GetProofRandomData` with inputs `(secret1, a1, b1, a2, b2)` and draws
`r1, c2, z2, ordDraw` builds `triple1 = (a1^r1 mod p, a1, b1)` and
`triple2 = (x2, a2, b2)`, with `x2 = a2^z2 * inv mod p` for the inverse `inv` of
`b2^c2 mod p`; it returns `(triple1, triple2)` and records order 0 exactly when the draw
is 0, and returns `(triple2, triple1)` and records order 1 otherwise; the prover after the
call holds exactly the given `secret1, a1, a2` and the drawn `r1, c2, z2`. It fails only
when `b2^c2` has no inverse, which does not happen for a prime `p` not dividing `b2`. -/
theorem GetProofRandomData_spec (prover : PartialDLogProver) (secret1 : Int)
    (a1 b1 a2 b2 r1 c2 z2 ordDraw : Nat) :
    prover.GetProofRandomData secret1 a1 b1 a2 b2 r1 c2 z2 ordDraw =
      (prover.DLog.Inverse (b2 ^ c2 % prover.DLog.P)).map (fun inv =>
        if ordDraw = 0 then
          (PartialDLogProver.mk prover.DLog (some secret1) (some a1) (some a2) (some r1)
              (some c2) (some z2) 0,
            NewTriple (a1 ^ r1 % prover.DLog.P) a1 b1,
            NewTriple ((a2 ^ z2 % prover.DLog.P) * inv % prover.DLog.P) a2 b2)
        else
          (PartialDLogProver.mk prover.DLog (some secret1) (some a1) (some a2) (some r1)
              (some c2) (some z2) 1,
            NewTriple ((a2 ^ z2 % prover.DLog.P) * inv % prover.DLog.P) a2 b2,
            NewTriple (a1 ^ r1 % prover.DLog.P) a1 b1)) ∧
    (prover.DLog.P.Prime → ¬ prover.DLog.P ∣ b2 →
      (prover.GetProofRandomData secret1 a1 b1 a2 b2 r1 c2 z2 ordDraw).isSome = true) := by
  have key : prover.GetProofRandomData secret1 a1 b1 a2 b2 r1 c2 z2 ordDraw =
      (prover.DLog.Inverse (b2 ^ c2 % prover.DLog.P)).map (fun inv =>
        if ordDraw = 0 then
          (PartialDLogProver.mk prover.DLog (some secret1) (some a1) (some a2) (some r1)
              (some c2) (some z2) 0,
            NewTriple (a1 ^ r1 % prover.DLog.P) a1 b1,
            NewTriple ((a2 ^ z2 % prover.DLog.P) * inv % prover.DLog.P) a2 b2)
        else
          (PartialDLogProver.mk prover.DLog (some secret1) (some a1) (some a2) (some r1)
              (some c2) (some z2) 1,
            NewTriple ((a2 ^ z2 % prover.DLog.P) * inv % prover.DLog.P) a2 b2,
            NewTriple (a1 ^ r1 % prover.DLog.P) a1 b1)) := by
    cases hinv : prover.DLog.Inverse (b2 ^ c2 % prover.DLog.P) with
    | none => simp [PartialDLogProver.GetProofRandomData, ZpDLog.Exponentiate, hinv]
    | some inv =>
      rw [GetProofRandomData_of_inverse prover secret1 a1 b1 a2 b2 r1 c2 z2 ordDraw inv hinv]
      by_cases ho : ordDraw = 0
      · simp only [ho, if_true, Option.map_some', ZpDLog.Exponentiate, ZpDLog.Multiply]
      · simp only [ho, if_false, Option.map_some', ZpDLog.Exponentiate, ZpDLog.Multiply]
  refine ⟨key, ?_⟩
  intro hp hb2
  obtain ⟨inv, hinv⟩ := Inverse_isSome hp.pos (coprime_pow_mod hp hb2 c2)
  rw [key, hinv]
  rfl

theorem GetProofRandomData_spec_witness :
    Nat.Prime 23 ∧ ¬ 23 ∣ 9 ∧
      ((NewPartialDLogProver ⟨23, 11⟩).GetProofRandomData 3 4 18 2 9 5 8 7 1).isSome
        = true :=
  ⟨by norm_num, by decide,
    (GetProofRandomData_spec (NewPartialDLogProver ⟨23, 11⟩) 3 4 18 2 9 5 8 7 1).2
      (show Nat.Prime 23 by norm_num) (by decide)⟩

/-- C7 (challenge splitting). For every prover state and every challenge `c`, if
`GetProofData c` returns `(u1, w1, u2, w2)` then `u1 XOR u2 = c`, whatever the recorded
order is; so on a verifier whose stored challenge is `c` the XOR check passes and
`Verify` returns the conjunction of the two checks of the triples. -/
theorem GetProofData_challenge_split (prover : PartialDLogProver) (c u1 w1 u2 w2 : Nat)
    (h : prover.GetProofData c = some (u1, w1, u2, w2)) :
    u1 ^^^ u2 = c ∧
      ∀ (verifier : PartialDLogVerifier) (t1 t2 : Triple),
        verifier.triple1 = some t1 → verifier.triple2 = some t2 →
        verifier.challenge = some c →
        verifier.Verify u1 w1 u2 w2 =
          some (verifier.verifyTriple t1 u1 w1 && verifier.verifyTriple t2 u2 w2) := by
  have hx := GetProofData_xor prover c u1 w1 u2 w2 h
  refine ⟨hx, ?_⟩
  intro verifier t1 t2 h1 h2 hc
  rw [Verify_of_set verifier t1 t2 c u1 w1 u2 w2 h1 h2 hc, hx]
  simp

theorem GetProofData_challenge_split_witness :
    PartialDLogProver.GetProofData (PartialDLogProver.mk ⟨23, 11⟩ (some 3) (some 4)
        (some 2) (some 5) (some 8) (some 7) 1) 3 = some (8, 7, 11, 5) ∧
      8 ^^^ 11 = 3 ∧
      ∀ (verifier : PartialDLogVerifier) (t1 t2 : Triple),
        verifier.triple1 = some t1 → verifier.triple2 = some t2 →
        verifier.challenge = some 3 →
        verifier.Verify 8 7 11 5 =
          some (verifier.verifyTriple t1 8 7 && verifier.verifyTriple t2 11 5) :=
  ⟨by decide, GetProofData_challenge_split (PartialDLogProver.mk ⟨23, 11⟩ (some 3) (some 4)
    (some 2) (some 5) (some 8) (some 7) 1) 3 8 7 11 5 (by decide)⟩

/-- The exchange on fresh instances fails when the inverse of `b2^c2` does not exist. -/
theorem proofExchange_of_no_inverse (dlog : ZpDLog) (secret1 : Int)
    (a1 b1 a2 b2 r1 c2 z2 ordDraw c : Nat)
    (h : dlog.Inverse (dlog.Exponentiate b2 c2) = none) :
    proofExchange (NewPartialDLogProver dlog) (NewPartialDLogVerifier dlog) secret1
        a1 b1 a2 b2 r1 c2 z2 ordDraw c = none := by
  have h1 : (NewPartialDLogProver dlog).DLog.Inverse
      ((NewPartialDLogProver dlog).DLog.Exponentiate b2 c2) = none := h
  simp only [proofExchange, PartialDLogProver.GetProofRandomData, h1]

/-- The exchange on fresh instances fails when the subgroup order is zero. -/
theorem proofExchange_of_zero_order (dlog : ZpDLog) (secret1 : Int)
    (a1 b1 a2 b2 r1 c2 z2 ordDraw c : Nat) (hq : dlog.OrderOfSubgroup = 0) :
    proofExchange (NewPartialDLogProver dlog) (NewPartialDLogVerifier dlog) secret1
        a1 b1 a2 b2 r1 c2 z2 ordDraw c = none := by
  cases hinv : dlog.Inverse (dlog.Exponentiate b2 c2) with
  | none => exact proofExchange_of_no_inverse dlog secret1 a1 b1 a2 b2 r1 c2 z2 ordDraw c hinv
  | some inv =>
    unfold proofExchange
    rw [GetProofRandomData_of_inverse (NewPartialDLogProver dlog) secret1 a1 b1 a2 b2 r1 c2
      z2 ordDraw inv hinv]
    by_cases ho : ordDraw = 0
    · simp [ho, NewPartialDLogProver, PartialDLogVerifier.GetChallenge,
        PartialDLogProver.GetProofData, ZpDLog.GetOrderOfSubgroup, hq]
    · simp [ho, NewPartialDLogProver, PartialDLogVerifier.GetChallenge,
        PartialDLogProver.GetProofData, ZpDLog.GetOrderOfSubgroup, hq]

/-- The outcome of the exchange on fresh instances does not depend on the order draw. -/
theorem proofExchange_order_irrelevant (dlog : ZpDLog) (secret1 : Int)
    (a1 b1 a2 b2 r1 c2 z2 c ordDraw ordDraw1 : Nat) :
    proofExchange (NewPartialDLogProver dlog) (NewPartialDLogVerifier dlog) secret1
        a1 b1 a2 b2 r1 c2 z2 ordDraw c =
      proofExchange (NewPartialDLogProver dlog) (NewPartialDLogVerifier dlog) secret1
        a1 b1 a2 b2 r1 c2 z2 ordDraw1 c := by
  rcases Nat.eq_zero_or_pos dlog.OrderOfSubgroup with hq | hq
  · rw [proofExchange_of_zero_order dlog secret1 a1 b1 a2 b2 r1 c2 z2 ordDraw c hq,
      proofExchange_of_zero_order dlog secret1 a1 b1 a2 b2 r1 c2 z2 ordDraw1 c hq]
  · cases hinv : dlog.Inverse (dlog.Exponentiate b2 c2) with
    | none =>
      rw [proofExchange_of_no_inverse dlog secret1 a1 b1 a2 b2 r1 c2 z2 ordDraw c hinv,
        proofExchange_of_no_inverse dlog secret1 a1 b1 a2 b2 r1 c2 z2 ordDraw1 c hinv]
    | some inv =>
      rw [proofExchange_of_inverse dlog secret1 a1 b1 a2 b2 r1 c2 z2 ordDraw c inv hq hinv,
        proofExchange_of_inverse dlog secret1 a1 b1 a2 b2 r1 c2 z2 ordDraw1 c inv hq hinv]

/-- C9 (branch-order independence). For all inputs `(secret1, a1, a2, b2)`, valid or not,
all groups and all fixed draws `r1, c2, z2` and challenge `c`, the result of
`ProvePartialDLogKnowledge` when the order draw is 0 equals its result when the order
draw is 1: the same boolean, or a failure in both. -/
theorem ProvePartialDLogKnowledge_order_independent (dlog : ZpDLog)
    (secret1 a1 a2 b2 r1 c2 z2 c : Nat) :
    ProvePartialDLogKnowledge dlog secret1 a1 a2 b2 r1 c2 z2 0 c =
      ProvePartialDLogKnowledge dlog secret1 a1 a2 b2 r1 c2 z2 1 c := by
  unfold ProvePartialDLogKnowledge
  exact proofExchange_order_irrelevant dlog secret1 a1 _ a2 b2 r1 c2 z2 c 0 1

/-- The transcript of an exchange, once the inverse of `b2^c2` is known. -/
theorem transcript_of_inverse (dlog : ZpDLog) (secret1 : Int)
    (a1 b1 a2 b2 r1 c2 z2 ordDraw c inv : Nat) (hq : 0 < dlog.OrderOfSubgroup)
    (h : dlog.Inverse (dlog.Exponentiate b2 c2) = some inv) :
    transcript dlog secret1 a1 b1 a2 b2 r1 c2 z2 ordDraw c =
      if ordDraw = 0 then
        some (NewTriple (dlog.Exponentiate a1 r1) a1 b1,
          NewTriple (dlog.Multiply (dlog.Exponentiate a2 z2) inv) a2 b2, c,
          (c2 ^^^ c, (responseZ1 dlog.OrderOfSubgroup (c2 ^^^ c) secret1 r1).toNat, c2, z2))
      else
        some (NewTriple (dlog.Multiply (dlog.Exponentiate a2 z2) inv) a2 b2,
          NewTriple (dlog.Exponentiate a1 r1) a1 b1, c,
          (c2, z2, c2 ^^^ c, (responseZ1 dlog.OrderOfSubgroup (c2 ^^^ c) secret1 r1).toNat)) := by
  unfold transcript
  rw [GetProofRandomData_of_inverse (NewPartialDLogProver dlog) secret1 a1 b1 a2 b2 r1 c2 z2
    ordDraw inv h]
  by_cases ho : ordDraw = 0
  · simp only [ho, if_true, NewPartialDLogProver]
    rw [GetProofData_of_set dlog secret1 _ _ r1 c2 z2 0 c hq]
    rfl
  · simp only [ho, if_false, NewPartialDLogProver]
    rw [GetProofData_of_set dlog secret1 _ _ r1 c2 z2 1 c hq]
    rfl

/-- A commitment that passes the check of a branch for the pair `(c, z)` is the simulated
commitment for `(c, z)`. -/
theorem simulated_commitment_eq (verifier : PartialDLogVerifier) (a b c z inv y : Nat)
    (hinv : verifier.DLog.Inverse (verifier.DLog.Exponentiate b c) = some inv)
    (hy : y < verifier.DLog.P)
    (h : verifier.verifyTriple (NewTriple y a b) c z = true) :
    verifier.DLog.Multiply (verifier.DLog.Exponentiate a z) inv = y := by
  have hsim := verifyTriple_simulated verifier a b c z inv hinv
  rw [verifyTriple_iff] at h hsim
  simp only [NewTriple] at h hsim
  have hu : b ^ c * inv ≡ 1 [MOD verifier.DLog.P] := by
    have h1 : verifier.DLog.Exponentiate b c * inv ≡ 1 [MOD verifier.DLog.P] :=
      (Inverse_spec hinv).2
    exact ((Nat.mod_modEq _ _).mul_right inv).symm.trans h1
  have hcong := modEq_of_mul_invertible hu (hsim.symm.trans h)
  have hlt : verifier.DLog.Multiply (verifier.DLog.Exponentiate a z) inv < verifier.DLog.P :=
    Nat.mod_lt _ (by omega)
  unfold Nat.ModEq at hcong
  rwa [Nat.mod_eq_of_lt hy, Nat.mod_eq_of_lt hlt] at hcong

/-- Powers of a target in the subgroup are invertible modulo `P`. -/
theorem coprime_target_pow {P q a : Nat} (hq : 0 < q) (h : a ^ q % P = 1 % P) (s c : Nat) :
    Nat.Coprime ((a ^ s % P) ^ c % P) P := by
  have h1 : Nat.Coprime (a ^ s % P) P := Nat.coprime_of_mul_modEq_one _ (pow_invertible hq h s)
  have h2 : Nat.Coprime ((a ^ s % P) ^ c) P := Nat.Coprime.pow_left c h1
  rw [Nat.Coprime, ← Nat.gcd_rec, Nat.gcd_comm]
  exact h2

/-- The nonce that makes the response of a real branch equal to a given `z`. -/
theorem nonce_for_response (q m z : Nat) (hz : z < q) :
    (m + (z + (q - m % q)) % q) % q = z := by
  have hq : 0 < q := by omega
  have hm : m % q < q := Nat.mod_lt _ hq
  have hdiv := Nat.div_add_mod m q
  rw [Nat.add_mod, Nat.mod_mod, ← Nat.add_mod]
  have e : m + (z + (q - m % q)) = z + q * (m / q + 1) := by
    rw [Nat.mul_add, Nat.mul_one]
    generalize q * (m / q) = t at hdiv ⊢
    omega
  rw [e, Nat.add_mul_mod_self_left, Nat.mod_eq_of_lt hz]

/-- Where the sub-challenge of the real branch stays below `q`, the transcript does not
tell which secret the prover knows: a transcript of the prover that knows `s1` for
`(a1, a1^s1)` and simulates `(a2, a2^s2)` is also a transcript of the prover that knows
`s2` and simulates `(a1, a1^s1)`, for draws in `[0, q)` and the opposite order draw. -/
theorem transcript_simulable (dlog : ZpDLog) (s1 s2 a1 a2 r1 c2 z2 ordDraw c : Nat)
    (hp : dlog.P.Prime) (hq : 0 < dlog.OrderOfSubgroup)
    (ha1 : a1 ^ dlog.OrderOfSubgroup % dlog.P = 1)
    (ha2 : a2 ^ dlog.OrderOfSubgroup % dlog.P = 1)
    (hz2 : z2 < dlog.OrderOfSubgroup) (hc1 : c2 ^^^ c < dlog.OrderOfSubgroup) :
    ∃ r1n c2n z2n ordn : Nat,
      r1n < dlog.OrderOfSubgroup ∧ c2n < dlog.OrderOfSubgroup ∧
      z2n < dlog.OrderOfSubgroup ∧ ordn < 2 ∧
      (transcript dlog s1 a1 (dlog.Exponentiate a1 s1) a2 (dlog.Exponentiate a2 s2)
        r1 c2 z2 ordDraw c).isSome = true ∧
      transcript dlog s2 a2 (dlog.Exponentiate a2 s2) a1 (dlog.Exponentiate a1 s1)
          r1n c2n z2n ordn c =
        transcript dlog s1 a1 (dlog.Exponentiate a1 s1) a2 (dlog.Exponentiate a2 s2)
          r1 c2 z2 ordDraw c := by
  have h1 : a1 ^ dlog.OrderOfSubgroup % dlog.P = 1 % dlog.P := by
    rw [ha1, Nat.mod_eq_of_lt hp.one_lt]
  have h2 : a2 ^ dlog.OrderOfSubgroup % dlog.P = 1 % dlog.P := by
    rw [ha2, Nat.mod_eq_of_lt hp.one_lt]
  obtain ⟨inv2, hinv2⟩ : ∃ y, dlog.Inverse
      (dlog.Exponentiate (dlog.Exponentiate a2 s2) c2) = some y :=
    Inverse_isSome hp.pos (coprime_target_pow hq h2 s2 c2)
  obtain ⟨inv1, hinv1⟩ : ∃ y, dlog.Inverse
      (dlog.Exponentiate (dlog.Exponentiate a1 s1) (c2 ^^^ c)) = some y :=
    Inverse_isSome hp.pos (coprime_target_pow hq h1 s1 (c2 ^^^ c))
  have hback : (c2 ^^^ c) ^^^ c = c2 := by
    rw [Nat.xor_assoc, Nat.xor_self, Nat.xor_zero]
  have hnonce := nonce_for_response dlog.OrderOfSubgroup (c2 * s2) z2 hz2
  have hv1 := verifyTriple_real (NewPartialDLogVerifier dlog) a1 r1 (c2 ^^^ c) s1 h1
  have hv2 := verifyTriple_real (NewPartialDLogVerifier dlog) a2
    ((z2 + (dlog.OrderOfSubgroup - c2 * s2 % dlog.OrderOfSubgroup)) % dlog.OrderOfSubgroup)
    c2 s2 h2
  simp only [NewPartialDLogVerifier] at hv1 hv2
  rw [hnonce] at hv2
  have hx1 := simulated_commitment_eq (NewPartialDLogVerifier dlog) a1
    (dlog.Exponentiate a1 s1) (c2 ^^^ c)
    (((c2 ^^^ c) * s1 + r1) % dlog.OrderOfSubgroup) inv1 (dlog.Exponentiate a1 r1) hinv1
    (Nat.mod_lt _ hp.pos) hv1
  have hx2 := simulated_commitment_eq (NewPartialDLogVerifier dlog) a2
    (dlog.Exponentiate a2 s2) c2 z2 inv2 (dlog.Exponentiate a2
      ((z2 + (dlog.OrderOfSubgroup - c2 * s2 % dlog.OrderOfSubgroup)) %
        dlog.OrderOfSubgroup)) hinv2 (Nat.mod_lt _ hp.pos) hv2
  simp only [NewPartialDLogVerifier] at hx1 hx2
  refine ⟨(z2 + (dlog.OrderOfSubgroup - c2 * s2 % dlog.OrderOfSubgroup)) %
      dlog.OrderOfSubgroup, c2 ^^^ c, ((c2 ^^^ c) * s1 + r1) % dlog.OrderOfSubgroup,
    if ordDraw = 0 then 1 else 0, Nat.mod_lt _ hq, hc1, Nat.mod_lt _ hq, ?_, ?_, ?_⟩
  · split <;> omega
  · rw [transcript_of_inverse dlog s1 a1 _ a2 _ r1 c2 z2 ordDraw c inv2 hq hinv2]
    split <;> rfl
  · rw [transcript_of_inverse dlog s1 a1 _ a2 _ r1 c2 z2 ordDraw c inv2 hq hinv2,
      transcript_of_inverse dlog s2 a2 _ a1 _ _ (c2 ^^^ c) _ _ c inv1 hq hinv1,
      responseZ1_natCast, responseZ1_natCast, hback, hnonce, hx1, hx2]
    by_cases ho : ordDraw = 0
    · simp only [ho, if_true, one_ne_zero, if_false]
    · simp only [ho, if_false, if_true]

/-- C8, evaluated on the group `p = 23`, `q = 11` and the statement `(4, 18, 2, 9)`, where
`4^3 = 18` and `2^5 = 9` modulo 23. The prover that knows the secret 3 of the branch
`(4, 18)` draws `r1 = 5`, `c2 = 8`, `z2 = 7` and order 0, and receives the challenge 3:
its transcript carries the sub-challenge `8 XOR 3 = 11` at the position of `(4, 18)`.
No prover that knows the secret 5 of the branch `(2, 9)` and simulates `(4, 18)`
produces this transcript, whatever it draws in `[0, 11)` and whatever the order draw is:
the sub-challenge of a simulated branch is a draw below 11. -/
theorem transcript_reveals_known_branch :
    4 ^ 11 % 23 = 1 ∧ 2 ^ 11 % 23 = 1 ∧ 4 ^ 3 % 23 = 18 ∧ 2 ^ 5 % 23 = 9 ∧
    transcript ⟨23, 11⟩ 3 4 18 2 9 5 8 7 0 3 =
      some (⟨12, 4, 18⟩, ⟨1, 2, 9⟩, 3, (11, 5, 8, 7)) ∧
    ∀ r1 c2 z2 ordDraw : Nat, r1 < 11 → c2 < 11 → z2 < 11 →
      transcript ⟨23, 11⟩ 5 2 9 4 18 r1 c2 z2 ordDraw 3 ≠
        transcript ⟨23, 11⟩ 3 4 18 2 9 5 8 7 0 3 := by
  refine ⟨by decide, by decide, by decide, by decide, rfl, ?_⟩
  intro r1 c2 z2 ordDraw _ hc2 _ h
  have h0 : transcript ⟨23, 11⟩ 3 4 18 2 9 5 8 7 0 3 =
      some (⟨12, 4, 18⟩, ⟨1, 2, 9⟩, 3, (11, 5, 8, 7)) := rfl
  rw [h0] at h
  cases hinv : ZpDLog.Inverse ⟨23, 11⟩ (ZpDLog.Exponentiate ⟨23, 11⟩ 18 c2) with
  | none =>
    simp [transcript, PartialDLogProver.GetProofRandomData, NewPartialDLogProver, hinv] at h
  | some inv =>
    rw [transcript_of_inverse ⟨23, 11⟩ 5 2 9 4 18 r1 c2 z2 ordDraw 3 inv (by decide) hinv] at h
    by_cases ho : ordDraw = 0
    · simp [ho, NewTriple] at h
    · simp only [ho, if_false, Option.some.injEq, Prod.mk.injEq] at h
      omega

/-- The check of the real branch against a public target `t`, when the response is the
honest one for the secret `s`: it passes exactly when `t^c = (a^s)^c` modulo `P`. -/
theorem verifyTriple_real_target (verifier : PartialDLogVerifier) (a r c s t : Nat)
    (hq : 0 < verifier.DLog.OrderOfSubgroup)
    (h : a ^ verifier.DLog.OrderOfSubgroup % verifier.DLog.P = 1 % verifier.DLog.P) :
    verifier.verifyTriple (NewTriple (verifier.DLog.Exponentiate a r) a t) c
        ((c * s + r) % verifier.DLog.OrderOfSubgroup) = true ↔
      t ^ c ≡ (verifier.DLog.Exponentiate a s) ^ c [MOD verifier.DLog.P] := by
  have hreal := (verifyTriple_iff verifier _ c _).mp (verifyTriple_real verifier a r c s h)
  rw [verifyTriple_iff]
  simp only [NewTriple] at hreal ⊢
  have hu := pow_invertible hq h r
  constructor
  · intro ht
    have h1 : t ^ c * verifier.DLog.Exponentiate a r ≡
        verifier.DLog.Exponentiate a s ^ c * verifier.DLog.Exponentiate a r
        [MOD verifier.DLog.P] := by
      rw [mul_comm (t ^ c), mul_comm (verifier.DLog.Exponentiate a s ^ c)]
      exact ht.symm.trans hreal
    exact modEq_of_mul_invertible hu h1
  · intro ht
    exact hreal.trans ((ht.mul_left _).symm)

/-- C10, as amended. For a prime `p`, `q > 0`, `a1` with `a1^q = 1 (mod p)`, `b2` not
divisible by `p`, any secret, any outcome of the draws and of the challenge, and any bit
position `k`: when the target handed to `GetProofRandomData` is `b1 = a1^secret1 mod p`
with bit `k` flipped, the sequence GetProofRandomData, SetProofRandomData, GetChallenge,
GetProofData, Verify ends with `Verify` returning `false` if and only if the flipped
target and `b1`, raised to `c1 = c2 XOR c`, differ modulo `p`; it returns `true`
otherwise, in particular whenever `c = c2`. -/
theorem wrong_target_outcome (dlog : ZpDLog) (secret1 a1 a2 b2 r1 c2 z2 ordDraw c k : Nat)
    (hp : dlog.P.Prime) (hq : 0 < dlog.OrderOfSubgroup)
    (ha1 : a1 ^ dlog.OrderOfSubgroup % dlog.P = 1) (hb2 : ¬ dlog.P ∣ b2) :
    (proofExchange (NewPartialDLogProver dlog) (NewPartialDLogVerifier dlog) secret1 a1
        (dlog.Exponentiate a1 secret1 ^^^ 2 ^ k) a2 b2 r1 c2 z2 ordDraw c = some false ↔
      ¬ (dlog.Exponentiate a1 secret1 ^^^ 2 ^ k) ^ (c2 ^^^ c) ≡
          (dlog.Exponentiate a1 secret1) ^ (c2 ^^^ c) [MOD dlog.P]) ∧
    (proofExchange (NewPartialDLogProver dlog) (NewPartialDLogVerifier dlog) secret1 a1
        (dlog.Exponentiate a1 secret1 ^^^ 2 ^ k) a2 b2 r1 c2 z2 ordDraw c = some true ↔
      (dlog.Exponentiate a1 secret1 ^^^ 2 ^ k) ^ (c2 ^^^ c) ≡
          (dlog.Exponentiate a1 secret1) ^ (c2 ^^^ c) [MOD dlog.P]) ∧
    (c = c2 →
      proofExchange (NewPartialDLogProver dlog) (NewPartialDLogVerifier dlog) secret1 a1
        (dlog.Exponentiate a1 secret1 ^^^ 2 ^ k) a2 b2 r1 c2 z2 ordDraw c = some true) := by
  obtain ⟨inv, hinv⟩ := Inverse_isSome hp.pos (coprime_pow_mod hp hb2 c2)
  have ha : a1 ^ dlog.OrderOfSubgroup % dlog.P = 1 % dlog.P := by
    rw [ha1, Nat.mod_eq_of_lt hp.one_lt]
  have h1 := verifyTriple_real_target (NewPartialDLogVerifier dlog) a1 r1 (c2 ^^^ c) secret1
    (dlog.Exponentiate a1 secret1 ^^^ 2 ^ k) hq ha
  have h2 := verifyTriple_simulated (NewPartialDLogVerifier dlog) a2 b2 c2 z2 inv hinv
  have hiff : proofExchange (NewPartialDLogProver dlog) (NewPartialDLogVerifier dlog)
      secret1 a1 (dlog.Exponentiate a1 secret1 ^^^ 2 ^ k) a2 b2 r1 c2 z2 ordDraw c =
      some true ↔ (dlog.Exponentiate a1 secret1 ^^^ 2 ^ k) ^ (c2 ^^^ c) ≡
          (dlog.Exponentiate a1 secret1) ^ (c2 ^^^ c) [MOD dlog.P] := by
    rw [proofExchange_of_inverse dlog secret1 a1 _ a2 b2 r1 c2 z2 ordDraw c inv hq hinv,
      responseZ1_natCast]
    simp only [NewPartialDLogVerifier] at h1 h2 ⊢
    rw [h2, Bool.and_true, Option.some.injEq]
    exact h1
  have hsome : ∃ b : Bool, proofExchange (NewPartialDLogProver dlog)
      (NewPartialDLogVerifier dlog) secret1 a1 (dlog.Exponentiate a1 secret1 ^^^ 2 ^ k)
      a2 b2 r1 c2 z2 ordDraw c = some b := by
    rw [proofExchange_of_inverse dlog secret1 a1 _ a2 b2 r1 c2 z2 ordDraw c inv hq hinv]
    exact ⟨_, rfl⟩
  refine ⟨?_, hiff, ?_⟩
  · obtain ⟨b, hb⟩ := hsome
    rw [← hiff, hb]
    cases b <;> simp
  · intro hc
    rw [hiff, hc, Nat.xor_self, pow_zero, pow_zero]

theorem wrong_target_outcome_witness :
    Nat.Prime 23 ∧ 0 < 11 ∧ 4 ^ 11 % 23 = 1 ∧ ¬ 23 ∣ 9 ∧
    (proofExchange (NewPartialDLogProver ⟨23, 11⟩) (NewPartialDLogVerifier ⟨23, 11⟩) 3 4
        (ZpDLog.Exponentiate ⟨23, 11⟩ 4 3 ^^^ 2 ^ 0) 2 9 5 8 7 0 3 = some false ↔
      ¬ (ZpDLog.Exponentiate ⟨23, 11⟩ 4 3 ^^^ 2 ^ 0) ^ (8 ^^^ 3) ≡
          (ZpDLog.Exponentiate ⟨23, 11⟩ 4 3) ^ (8 ^^^ 3) [MOD 23]) :=
  ⟨by norm_num, by decide, by decide, by decide,
    (wrong_target_outcome ⟨23, 11⟩ 3 4 2 9 5 8 7 0 3 0 (by norm_num) (by decide) (by decide)
      (by decide)).1⟩

/-- C10 as stated fails: in the group `p = 23`, `q = 11` with `a1 = 4`, `secret1 = 3`,
`b1 = 4^3 mod 23 = 18`, the target `19` is `b1` with bit 0 flipped, all inputs are valid,
all draws are in `[0, 11)`, and for the challenge `c = 8 = c2` the sequence ends with
`Verify` returning `true`. -/
theorem wrong_target_accepted :
    Nat.Prime 23 ∧ 4 ^ 11 % 23 = 1 ∧ ¬ 23 ∣ 9 ∧
    ZpDLog.Exponentiate ⟨23, 11⟩ 4 3 = 18 ∧ 18 ^^^ 2 ^ 0 = 19 ∧
    proofExchange (NewPartialDLogProver ⟨23, 11⟩) (NewPartialDLogVerifier ⟨23, 11⟩) 3 4
      (ZpDLog.Exponentiate ⟨23, 11⟩ 4 3 ^^^ 2 ^ 0) 2 9 5 8 7 0 8 = some true :=
  ⟨by norm_num, by decide, by decide, by decide, by decide, by decide⟩

/-- C16 (verifier stores). `SetProofRandomData t1 t2` leaves the verifier holding exactly
`t1` as its first triple and `t2` as its second and leaves the stored challenge and the
group unchanged; `GetChallenge` with the draw `c` returns `c`, leaves the stored challenge
equal to the value returned, and leaves both stored triples and the group unchanged. -/
theorem verifier_stores (verifier : PartialDLogVerifier) (t1 t2 : Triple) (c : Nat) :
    ((verifier.SetProofRandomData t1 t2).triple1 = some t1 ∧
      (verifier.SetProofRandomData t1 t2).triple2 = some t2 ∧
      (verifier.SetProofRandomData t1 t2).challenge = verifier.challenge ∧
      (verifier.SetProofRandomData t1 t2).DLog = verifier.DLog) ∧
    ((verifier.GetChallenge c).2 = c ∧
      (verifier.GetChallenge c).1.challenge = some (verifier.GetChallenge c).2 ∧
      (verifier.GetChallenge c).1.triple1 = verifier.triple1 ∧
      (verifier.GetChallenge c).1.triple2 = verifier.triple2 ∧
      (verifier.GetChallenge c).1.DLog = verifier.DLog) :=
  ⟨⟨rfl, rfl, rfl, rfl⟩, ⟨rfl, rfl, rfl, rfl, rfl⟩⟩

/-- C17 (extraction relation). On a verifier holding fixed triples `(x1, a1, b1)`,
`(x2, a2, b2)`, if `Verify` accepts `(c1, z1, c2, z2)` when the stored challenge is `c` and
accepts `(c1n, z1n, c2n, z2n)` when the stored challenge is `cn`, with `c` different from
`cn`, then for at least one branch the sub-challenges differ and
`a^z * b^cn = a^zn * b^c (mod p)` for the values of that branch. -/
theorem Verify_extraction (dlog : ZpDLog) (x1 a1 b1 x2 a2 b2 : Nat)
    (c c1 z1 c2 z2 cn c1n z1n c2n z2n : Nat)
    (hacc : PartialDLogVerifier.Verify
      ⟨dlog, some (NewTriple x1 a1 b1), some (NewTriple x2 a2 b2), some c⟩ c1 z1 c2 z2
        = some true)
    (haccn : PartialDLogVerifier.Verify
      ⟨dlog, some (NewTriple x1 a1 b1), some (NewTriple x2 a2 b2), some cn⟩ c1n z1n c2n z2n
        = some true)
    (hne : c ≠ cn) :
    (c1 ≠ c1n ∧ a1 ^ z1 * b1 ^ c1n ≡ a1 ^ z1n * b1 ^ c1 [MOD dlog.P]) ∨
    (c2 ≠ c2n ∧ a2 ^ z2 * b2 ^ c2n ≡ a2 ^ z2n * b2 ^ c2 [MOD dlog.P]) := by
  rw [Verify_of_set _ (NewTriple x1 a1 b1) (NewTriple x2 a2 b2) c c1 z1 c2 z2 rfl rfl rfl]
    at hacc
  rw [Verify_of_set _ (NewTriple x1 a1 b1) (NewTriple x2 a2 b2) cn c1n z1n c2n z2n rfl rfl
    rfl] at haccn
  simp only [Option.some.injEq, Bool.and_eq_true, decide_eq_true_eq, verifyTriple_iff,
    NewTriple] at hacc haccn
  obtain ⟨hx, h1, h2⟩ := hacc
  obtain ⟨hxn, h1n, h2n⟩ := haccn
  have key : ∀ a b x z zn e en : Nat, a ^ z ≡ x * b ^ e [MOD dlog.P] →
      a ^ zn ≡ x * b ^ en [MOD dlog.P] →
      a ^ z * b ^ en ≡ a ^ zn * b ^ e [MOD dlog.P] := by
    intro a b x z zn e en hz hzn
    have l : a ^ z * b ^ en ≡ x * b ^ e * b ^ en [MOD dlog.P] := hz.mul_right _
    have r : a ^ zn * b ^ e ≡ x * b ^ en * b ^ e [MOD dlog.P] := hzn.mul_right _
    have m : x * b ^ e * b ^ en = x * b ^ en * b ^ e := by ring
    rw [m] at l
    exact l.trans r.symm
  by_cases hc1 : c1 = c1n
  · right
    refine ⟨?_, key a2 b2 x2 z2 z2n c2 c2n h2 h2n⟩
    intro hc2
    apply hne
    rw [← hx, ← hxn, hc1, hc2]
  · left
    exact ⟨hc1, key a1 b1 x1 z1 z1n c1 c1n h1 h1n⟩

theorem Verify_extraction_witness :
    PartialDLogVerifier.Verify ⟨⟨23, 11⟩, some (NewTriple 12 4 18), some (NewTriple 1 2 9),
        some 3⟩ 11 5 8 7 = some true ∧
    PartialDLogVerifier.Verify ⟨⟨23, 11⟩, some (NewTriple 12 4 18), some (NewTriple 1 2 9),
        some 4⟩ 12 8 8 7 = some true ∧
    ((11 ≠ 12 ∧ 4 ^ 5 * 18 ^ 12 ≡ 4 ^ 8 * 18 ^ 11 [MOD 23]) ∨
      (8 ≠ 8 ∧ 2 ^ 7 * 9 ^ 8 ≡ 2 ^ 7 * 9 ^ 8 [MOD 23])) :=
  ⟨by decide, by decide,
    Verify_extraction ⟨23, 11⟩ 12 4 18 1 2 9 3 11 5 8 7 4 12 8 8 7 (by decide) (by decide)
      (by decide)⟩

/-- C12, as amended. On the prover left by `GetProofRandomData` (with `q > 0`), a first
call of `GetProofData` returns four values and leaves the prover as it was, and a second
call on the same instance, with any challenge `cn`, returns four values again: the values
computed for `cn` from the unchanged `secret1, r1, c2, z2` and order, which are the values
of the first call when `cn = c`. -/
theorem GetProofData_second_call (prover0 prover : PartialDLogProver) (secret1 : Int)
    (a1 b1 a2 b2 r1 c2 z2 ordDraw c cn : Nat) (tA tB : Triple)
    (hq : 0 < prover0.DLog.OrderOfSubgroup)
    (hinit : prover0.GetProofRandomData secret1 a1 b1 a2 b2 r1 c2 z2 ordDraw
      = some (prover, tA, tB)) :
    ∃ (prover1 : PartialDLogProver) (response responsen : Nat × Nat × Nat × Nat),
      prover.GetProofDataCall c = some (prover1, response) ∧ prover1 = prover ∧
      prover1.GetProofDataCall cn = some (prover1, responsen) ∧
      responsen =
        (if ordDraw = 0 then
          (c2 ^^^ cn,
            (responseZ1 prover0.DLog.OrderOfSubgroup (c2 ^^^ cn) secret1 r1).toNat, c2, z2)
        else
          (c2, z2, c2 ^^^ cn,
            (responseZ1 prover0.DLog.OrderOfSubgroup (c2 ^^^ cn) secret1 r1).toNat)) ∧
      (cn = c → responsen = response) := by
  have hst := GetProofRandomData_state prover0 prover secret1 a1 b1 a2 b2 r1 c2 z2 ordDraw
    tA tB hinit
  have hget : ∀ e : Nat, prover.GetProofData e = some
      (if ordDraw = 0 then
        (c2 ^^^ e,
          (responseZ1 prover0.DLog.OrderOfSubgroup (c2 ^^^ e) secret1 r1).toNat, c2, z2)
      else
        (c2, z2, c2 ^^^ e,
          (responseZ1 prover0.DLog.OrderOfSubgroup (c2 ^^^ e) secret1 r1).toNat)) := by
    intro e
    rw [hst, GetProofData_of_set _ _ _ _ _ _ _ _ _ hq]
    by_cases ho : ordDraw = 0
    · simp only [ho, if_true]
    · simp only [ho, if_false, one_ne_zero]
  obtain ⟨response, hr⟩ : ∃ r, prover.GetProofData c = some r := ⟨_, hget c⟩
  refine ⟨prover, response, _, ?_, rfl, ?_, rfl, ?_⟩
  · simp only [PartialDLogProver.GetProofDataCall, hr]
  · simp only [PartialDLogProver.GetProofDataCall, hget cn]
  · intro h
    have h2 := hget c
    rw [hr, Option.some.injEq] at h2
    rw [h, h2]

theorem GetProofData_second_call_witness :
    ∃ (prover1 : PartialDLogProver) (response responsen : Nat × Nat × Nat × Nat),
      PartialDLogProver.GetProofDataCall (PartialDLogProver.mk ⟨23, 11⟩ (some 3) (some 4)
        (some 2) (some 5) (some 8) (some 7) 1) 3 = some (prover1, response) ∧
      prover1 = PartialDLogProver.mk ⟨23, 11⟩ (some 3) (some 4) (some 2) (some 5) (some 8)
        (some 7) 1 ∧
      prover1.GetProofDataCall 4 = some (prover1, responsen) ∧
      responsen =
        (if 1 = 0 then (8 ^^^ 4, (responseZ1 11 (8 ^^^ 4) 3 5).toNat, 8, 7)
        else (8, 7, 8 ^^^ 4, (responseZ1 11 (8 ^^^ 4) 3 5).toNat)) ∧
      (4 = 3 → responsen = response) :=
  GetProofData_second_call (NewPartialDLogProver ⟨23, 11⟩) _ 3 4 18 2 9 5 8 7 1 3 4
    ⟨1, 2, 9⟩ ⟨12, 4, 18⟩ (by decide) (by decide)

/-- C12 as stated fails: in the group `p = 23`, `q = 11`, the prover left by
`GetProofRandomData` answers the challenge 3 with `(8, 7, 11, 5)` and is left unchanged,
and a second call on it, with the challenge 4, returns `(8, 7, 12, 8)`. -/
theorem GetProofData_second_call_returns :
    (NewPartialDLogProver ⟨23, 11⟩).GetProofRandomData 3 4 18 2 9 5 8 7 1 =
      some (PartialDLogProver.mk ⟨23, 11⟩ (some 3) (some 4) (some 2) (some 5) (some 8)
        (some 7) 1, ⟨1, 2, 9⟩, ⟨12, 4, 18⟩) ∧
    PartialDLogProver.GetProofDataCall (PartialDLogProver.mk ⟨23, 11⟩ (some 3) (some 4)
        (some 2) (some 5) (some 8) (some 7) 1) 3 =
      some (PartialDLogProver.mk ⟨23, 11⟩ (some 3) (some 4) (some 2) (some 5) (some 8)
        (some 7) 1, (8, 7, 11, 5)) ∧
    PartialDLogProver.GetProofDataCall (PartialDLogProver.mk ⟨23, 11⟩ (some 3) (some 4)
        (some 2) (some 5) (some 8) (some 7) 1) 4 =
      some (PartialDLogProver.mk ⟨23, 11⟩ (some 3) (some 4) (some 2) (some 5) (some 8)
        (some 7) 1, (8, 7, 12, 8)) :=
  ⟨by decide, by decide, by decide⟩

/-- C14, as amended. On a verifier on which `GetChallenge` has not been called (stored
challenge unset), whether or not `SetProofRandomData` has been called, `Verify` with any
arguments fails and returns no boolean. On a verifier on which `GetChallenge` has been
called and `SetProofRandomData` has not, `Verify` fails when `c1 XOR c2` equals the stored
challenge and returns `false` when it differs. -/
theorem Verify_out_of_sequence (dlog : ZpDLog) (t1 t2 : Triple) (c c1 z1 c2 z2 : Nat) :
    (NewPartialDLogVerifier dlog).Verify c1 z1 c2 z2 = none ∧
    ((NewPartialDLogVerifier dlog).SetProofRandomData t1 t2).Verify c1 z1 c2 z2 = none ∧
    (∀ verifier : PartialDLogVerifier, verifier.challenge = none →
      verifier.Verify c1 z1 c2 z2 = none ∧ verifier.VerifyCall c1 z1 c2 z2 = none) ∧
    ((NewPartialDLogVerifier dlog).GetChallenge c).1.Verify c1 z1 c2 z2 =
      (if c1 ^^^ c2 = c then none else some false) ∧
    (∀ verifier : PartialDLogVerifier, verifier.challenge = some c →
      verifier.triple1 = none →
        verifier.Verify c1 z1 c2 z2 = (if c1 ^^^ c2 = c then none else some false)) := by
  refine ⟨rfl, rfl, ?_, ?_, ?_⟩
  · intro verifier h
    simp only [PartialDLogVerifier.VerifyCall, PartialDLogVerifier.Verify, h, and_self]
  · simp only [PartialDLogVerifier.Verify, PartialDLogVerifier.GetChallenge,
      NewPartialDLogVerifier, ne_eq]
    by_cases hx : c1 ^^^ c2 = c <;> simp [hx]
  · intro verifier hc ht
    simp only [PartialDLogVerifier.Verify, hc, ht, ne_eq]
    by_cases hx : c1 ^^^ c2 = c <;> simp [hx]

theorem Verify_out_of_sequence_witness :
    (PartialDLogVerifier.mk ⟨23, 11⟩ none none none).challenge = none ∧
    (PartialDLogVerifier.mk ⟨23, 11⟩ none none none).Verify 11 5 8 7 = none ∧
    (PartialDLogVerifier.mk ⟨23, 11⟩ none none (some 3)).challenge = some 3 ∧
    (PartialDLogVerifier.mk ⟨23, 11⟩ none none (some 3)).triple1 = none ∧
    (PartialDLogVerifier.mk ⟨23, 11⟩ none none (some 3)).Verify 11 5 8 7 =
      (if 11 ^^^ 8 = 3 then none else some false) :=
  ⟨rfl,
    ((Verify_out_of_sequence ⟨23, 11⟩ ⟨1, 2, 9⟩ ⟨12, 4, 18⟩ 3 11 5 8 7).2.2.1
      (PartialDLogVerifier.mk ⟨23, 11⟩ none none none) rfl).1,
    rfl, rfl,
    (Verify_out_of_sequence ⟨23, 11⟩ ⟨1, 2, 9⟩ ⟨12, 4, 18⟩ 3 11 5 8 7).2.2.2.2
      (PartialDLogVerifier.mk ⟨23, 11⟩ none none (some 3)) rfl rfl⟩

/-- C14 as stated fails: on a fresh verifier on which `GetChallenge` has drawn 3 and
`SetProofRandomData` has not been called, `Verify 1 0 1 0` returns the boolean `false`. -/
theorem Verify_without_commitments_returns :
    ((NewPartialDLogVerifier ⟨23, 11⟩).GetChallenge 3).1.triple1 = none ∧
    ((NewPartialDLogVerifier ⟨23, 11⟩).GetChallenge 3).1.triple2 = none ∧
    ((NewPartialDLogVerifier ⟨23, 11⟩).GetChallenge 3).1.Verify 1 0 1 0 = some false :=
  ⟨rfl, rfl, by decide⟩

/-- C15, as amended. Out-of-range secrets are not rejected. For a prime `p`, `q > 0`,
`a1` with `a1^q = 1 (mod p)` and `b2` not divisible by `p`: for every integer `secret1`,
also negative or at least `q`, `GetProofRandomData` on a fresh prover returns its two
triples, which do not depend on `secret1`, and stores `secret1` as given; and for every
`secret1 >= q`, `ProvePartialDLogKnowledge` returns `true`. -/
theorem out_of_range_secret_accepted (dlog : ZpDLog) (a1 b1 a2 b2 r1 c2 z2 ordDraw c : Nat)
    (hp : dlog.P.Prime) (hq : 0 < dlog.OrderOfSubgroup)
    (ha1 : a1 ^ dlog.OrderOfSubgroup % dlog.P = 1) (hb2 : ¬ dlog.P ∣ b2) :
    (∃ tA tB : Triple, ∀ secret1 : Int,
      secret1 < 0 ∨ (dlog.OrderOfSubgroup : Int) ≤ secret1 →
        ∃ prover1 : PartialDLogProver,
          (NewPartialDLogProver dlog).GetProofRandomData secret1 a1 b1 a2 b2 r1 c2 z2
            ordDraw = some (prover1, tA, tB) ∧ prover1.secret1 = some secret1) ∧
    (∀ secret1 : Nat, dlog.OrderOfSubgroup ≤ secret1 →
      ProvePartialDLogKnowledge dlog secret1 a1 a2 b2 r1 c2 z2 ordDraw c = some true) := by
  obtain ⟨inv, hinv⟩ := Inverse_isSome hp.pos (coprime_pow_mod hp hb2 c2)
  have ha : a1 ^ dlog.OrderOfSubgroup % dlog.P = 1 % dlog.P := by
    rw [ha1, Nat.mod_eq_of_lt hp.one_lt]
  constructor
  · refine ⟨if ordDraw = 0 then NewTriple (dlog.Exponentiate a1 r1) a1 b1
        else NewTriple (dlog.Multiply (dlog.Exponentiate a2 z2) inv) a2 b2,
      if ordDraw = 0 then NewTriple (dlog.Multiply (dlog.Exponentiate a2 z2) inv) a2 b2
        else NewTriple (dlog.Exponentiate a1 r1) a1 b1, ?_⟩
    intro secret1 _
    refine ⟨PartialDLogProver.mk dlog (some secret1) (some a1) (some a2) (some r1)
      (some c2) (some z2) (if ordDraw = 0 then 0 else 1), ?_, rfl⟩
    rw [GetProofRandomData_of_inverse (NewPartialDLogProver dlog) secret1 a1 b1 a2 b2 r1
      c2 z2 ordDraw inv hinv]
    by_cases ho : ordDraw = 0
    · simp only [ho, if_true]
      rfl
    · simp only [ho, if_false]
      rfl
  · intro secret1 _
    unfold ProvePartialDLogKnowledge
    simp only []
    rw [show (NewPartialDLogProver dlog).DLog = dlog from rfl,
      proofExchange_of_inverse dlog secret1 a1 _ a2 b2 r1 c2 z2 ordDraw c inv hq hinv,
      responseZ1_natCast]
    have h1 := verifyTriple_real (NewPartialDLogVerifier dlog) a1 r1 (c2 ^^^ c) secret1 ha
    have h2 := verifyTriple_simulated (NewPartialDLogVerifier dlog) a2 b2 c2 z2 inv hinv
    simp only [NewPartialDLogVerifier] at h1 h2 ⊢
    rw [h1, h2]
    rfl

theorem out_of_range_secret_accepted_witness :
    Nat.Prime 23 ∧ 0 < 11 ∧ 4 ^ 11 % 23 = 1 ∧ ¬ 23 ∣ 9 ∧ 11 ≤ 14 ∧
      ProvePartialDLogKnowledge ⟨23, 11⟩ 14 4 2 9 5 8 7 1 3 = some true :=
  ⟨by norm_num, by decide, by decide, by decide, by decide,
    (out_of_range_secret_accepted ⟨23, 11⟩ 4 18 2 9 5 8 7 1 3 (show Nat.Prime 23 by norm_num)
      (by decide) (by decide) (by decide)).2 14 (by decide)⟩

/-- C15 as stated fails: in the group `p = 23`, `q = 11`, `GetProofRandomData` with the
negative secret `-1` returns two triples, and `ProvePartialDLogKnowledge` with the secret
`14 >= q` returns a boolean. -/
theorem out_of_range_secret_not_rejected :
    (NewPartialDLogProver ⟨23, 11⟩).GetProofRandomData (-1) 4 18 2 9 5 8 7 0 =
      some (PartialDLogProver.mk ⟨23, 11⟩ (some (-1)) (some 4) (some 2) (some 5) (some 8)
        (some 7) 0, ⟨12, 4, 18⟩, ⟨1, 2, 9⟩) ∧
    11 ≤ 14 ∧ ProvePartialDLogKnowledge ⟨23, 11⟩ 14 4 2 9 5 8 7 0 3 = some true :=
  ⟨by decide, by decide, by decide⟩

/-- C18. Completeness depends on `a1` lying in the subgroup of order `q`, which no
operation checks: for `p = 23`, `q = 11` (a divisor of `p - 1`), the base `a1 = 5` with
`5^11` different from 1 modulo 23, `secret1 = 3` and the draws `r1 = 10`, `c2 = 0`,
`z2 = 7`, `c = 1`, all in `[0, q)`, the honest run of `ProvePartialDLogKnowledge`, which
computes `b1 = a1^secret1 mod p` itself, returns `false`. -/
theorem completeness_needs_subgroup :
    ∃ (dlog : ZpDLog) (secret1 a1 a2 b2 r1 c2 z2 ordDraw c : Nat),
      dlog.P.Prime ∧ 0 < dlog.OrderOfSubgroup ∧ dlog.OrderOfSubgroup ∣ dlog.P - 1 ∧
      1 ≤ a1 ∧ a1 < dlog.P ∧ a1 ^ dlog.OrderOfSubgroup % dlog.P ≠ 1 ∧
      secret1 < dlog.OrderOfSubgroup ∧ r1 < dlog.OrderOfSubgroup ∧
      c2 < dlog.OrderOfSubgroup ∧ z2 < dlog.OrderOfSubgroup ∧ c < dlog.OrderOfSubgroup ∧
      ordDraw < 2 ∧ a2 ^ dlog.OrderOfSubgroup % dlog.P = 1 ∧ ¬ dlog.P ∣ b2 ∧
      ProvePartialDLogKnowledge dlog secret1 a1 a2 b2 r1 c2 z2 ordDraw c = some false :=
  ⟨⟨23, 11⟩, 3, 5, 2, 9, 10, 0, 7, 0, 1, by norm_num, by decide, by decide, by decide,
    by decide, by decide, by decide, by decide, by decide, by decide, by decide, by decide,
    by decide, by decide, by decide⟩

/-- C19 (range of the response values). For `q > 0`, every integer `secret1` (also
negative or at least `q`), every `r1` and every `c2`, `z2` and challenge `c` in `[0, q)`,
`GetProofData` returns the pairs `(c1, z1)` and `(c2, z2)` with `c1 = c XOR c2`,
`0 <= z1 < q` (the value reduced by `Mod` is itself in that range), `z2 < q`, `c2 < q`
and `c1 < 2^k`, where `k` is the bit length of `q - 1`. -/
theorem GetProofData_range (dlog : ZpDLog) (secret1 : Int) (f1 f2 : Option Nat)
    (r1 c2 z2 ord c : Nat) (hq : 0 < dlog.OrderOfSubgroup)
    (hc2 : c2 < dlog.OrderOfSubgroup) (hz2 : z2 < dlog.OrderOfSubgroup)
    (hc : c < dlog.OrderOfSubgroup) :
    ∃ c1 z1 : Nat,
      PartialDLogProver.GetProofData (PartialDLogProver.mk dlog (some secret1) f1 f2
        (some r1) (some c2) (some z2) ord) c =
          some (if ord = 0 then (c1, z1, c2, z2) else (c2, z2, c1, z1)) ∧
      c1 = c ^^^ c2 ∧
      0 ≤ responseZ1 dlog.OrderOfSubgroup c1 secret1 r1 ∧
      responseZ1 dlog.OrderOfSubgroup c1 secret1 r1 < (dlog.OrderOfSubgroup : Int) ∧
      (z1 : Int) = responseZ1 dlog.OrderOfSubgroup c1 secret1 r1 ∧
      z1 < dlog.OrderOfSubgroup ∧ z2 < dlog.OrderOfSubgroup ∧ c2 < dlog.OrderOfSubgroup ∧
      c1 < 2 ^ Nat.size (dlog.OrderOfSubgroup - 1) := by
  have hqz : (0 : Int) < (dlog.OrderOfSubgroup : Int) := by exact_mod_cast hq
  have hnn : 0 ≤ responseZ1 dlog.OrderOfSubgroup (c ^^^ c2) secret1 r1 := by
    unfold responseZ1
    exact Int.emod_nonneg _ (by omega)
  have hlt : responseZ1 dlog.OrderOfSubgroup (c ^^^ c2) secret1 r1
      < (dlog.OrderOfSubgroup : Int) := by
    unfold responseZ1
    exact Int.emod_lt_of_pos _ hqz
  have hz := responseZ1_nonneg dlog.OrderOfSubgroup (c ^^^ c2) secret1 r1 hq
  have hbits : ∀ n : Nat, n < dlog.OrderOfSubgroup →
      n < 2 ^ Nat.size (dlog.OrderOfSubgroup - 1) := by
    intro n hn
    have h1 : n ≤ dlog.OrderOfSubgroup - 1 := by omega
    exact lt_of_le_of_lt h1 (Nat.lt_size_self _)
  refine ⟨c ^^^ c2, (responseZ1 dlog.OrderOfSubgroup (c ^^^ c2) secret1 r1).toNat, ?_, rfl,
    hnn, hlt, hz, ?_, hz2, hc2, Nat.xor_lt_two_pow (hbits c hc) (hbits c2 hc2)⟩
  · rw [GetProofData_of_set dlog secret1 f1 f2 r1 c2 z2 ord c hq, Nat.xor_comm c c2]
    by_cases ho : ord = 0
    · simp only [ho, if_true]
    · simp only [ho, if_false]
  · have : ((responseZ1 dlog.OrderOfSubgroup (c ^^^ c2) secret1 r1).toNat : Int)
        < (dlog.OrderOfSubgroup : Int) := by
      rw [hz]
      exact hlt
    exact_mod_cast this

theorem GetProofData_range_witness :
    0 < 11 ∧ 8 < 11 ∧ 7 < 11 ∧ 3 < 11 ∧
    ∃ c1 z1 : Nat,
      PartialDLogProver.GetProofData (PartialDLogProver.mk ⟨23, 11⟩ (some (-4)) (some 4)
        (some 2) (some 5) (some 8) (some 7) 0) 3 =
          some (if 0 = 0 then (c1, z1, 8, 7) else (8, 7, c1, z1)) ∧
      c1 = 3 ^^^ 8 ∧
      0 ≤ responseZ1 11 c1 (-4) 5 ∧
      responseZ1 11 c1 (-4) 5 < ((11 : Nat) : Int) ∧
      (z1 : Int) = responseZ1 11 c1 (-4) 5 ∧
      z1 < 11 ∧ 7 < 11 ∧ 8 < 11 ∧ c1 < 2 ^ Nat.size (11 - 1) :=
  ⟨by decide, by decide, by decide, by decide,
    GetProofData_range ⟨23, 11⟩ (-4) (some 4) (some 2) 5 8 7 0 3 (by decide) (by decide)
      (by decide) (by decide)⟩

/-! ## Frame of `Verify` on the heap -/

theorem Heap_newInt_set (h : Heap) (v : Nat) :
    (h.newInt).1.set (h.newInt).2 v = some (h.push v) := by
  simp [Heap.newInt, Heap.set, Heap.push]

theorem Heap_read_lt {h : Heap} {p v : Nat} (hp : h.read p = some v) :
    p < h.cells.length := by
  unfold Heap.read at hp
  by_contra hc
  rw [List.getElem?_eq_none (by omega)] at hp
  exact Option.noConfusion hp

theorem Heap_read_of_lt {h : Heap} {p : Nat} (hp : p < h.cells.length) :
    ∃ v, h.read p = some v :=
  ⟨h.cells[p], by unfold Heap.read; exact List.getElem?_eq_getElem hp⟩

/-- An object allocated in `h` holds the same value in every heap that extends `h`. -/
theorem Heap_read_of_extension {h h1 : Heap} (hpre : h.cells <+: h1.cells) {p : Nat}
    (hp : p < h.cells.length) : h1.read p = h.read p := by
  obtain ⟨l, hl⟩ := hpre
  unfold Heap.read
  rw [← hl, List.getElem?_append_left hp]

theorem Heap_push_extends (h : Heap) (v : Nat) : h.cells <+: (h.push v).cells :=
  ⟨[v], rfl⟩

theorem Heap_read_push_of_some {h : Heap} {p v : Nat} (w : Nat) (hp : h.read p = some v) :
    (h.push w).read p = some v := by
  rw [Heap_read_of_extension (Heap_push_extends h w) (Heap_read_lt hp)]
  exact hp

theorem Heap_read_push_self (h : Heap) (w : Nat) :
    (h.push w).read h.cells.length = some w := by
  simp [Heap.read, Heap.push]

theorem Heap_newXor_eq {h : Heap} {x y xv yv : Nat} (hx : h.read x = some xv)
    (hy : h.read y = some yv) :
    h.newXor x y = some (h.push (xv ^^^ yv), h.cells.length) := by
  unfold Heap.newXor
  simp only [hx, hy, Heap_newInt_set]
  rfl

theorem Heap_cmpEq_eq {h : Heap} {x y xv yv : Nat} (hx : h.read x = some xv)
    (hy : h.read y = some yv) : h.cmpEq x y = some (decide (xv = yv)) := by
  unfold Heap.cmpEq
  simp only [hx, hy]

theorem ExponentiateRef_eq (dlog : ZpDLog) {h : Heap} {x y xv yv : Nat}
    (hx : h.read x = some xv) (hy : h.read y = some yv) :
    dlog.ExponentiateRef h x y = some (h.push (dlog.Exponentiate xv yv), h.cells.length) := by
  unfold ZpDLog.ExponentiateRef
  simp only [hx, hy, Heap_newInt_set]
  rfl

theorem MultiplyRef_eq (dlog : ZpDLog) {h : Heap} {x y xv yv : Nat}
    (hx : h.read x = some xv) (hy : h.read y = some yv) :
    dlog.MultiplyRef h x y = some (h.push (dlog.Multiply xv yv), h.cells.length) := by
  unfold ZpDLog.MultiplyRef
  simp only [hx, hy, Heap_newInt_set]
  rfl

/-- Method `verifyTriple` on the heap computes the check of the values it reads, and only
adds objects to the heap. -/
theorem VerifierRef_verifyTriple_eq (verifier : VerifierRef) (pure : PartialDLogVerifier)
    (hd : pure.DLog = verifier.DLog) {h : Heap} {triple : TripleRef}
    {challenge z a b c cv zv : Nat}
    (ha : h.read triple.A = some a) (hb : h.read triple.B = some b)
    (hc : h.read triple.C = some c) (hch : h.read challenge = some cv)
    (hz : h.read z = some zv) :
    ∃ h1 : Heap, h.cells <+: h1.cells ∧
      verifier.verifyTriple h triple challenge z =
        some (h1, pure.verifyTriple ⟨a, b, c⟩ cv zv) := by
  refine ⟨((h.push (verifier.DLog.Exponentiate b zv)).push
      (verifier.DLog.Exponentiate c cv)).push
      (verifier.DLog.Multiply (verifier.DLog.Exponentiate c cv) a), ?_, ?_⟩
  · exact ((Heap_push_extends h _).trans (Heap_push_extends _ _)).trans (Heap_push_extends _ _)
  · unfold VerifierRef.verifyTriple
    rw [ExponentiateRef_eq verifier.DLog hb hz]
    simp only []
    rw [ExponentiateRef_eq verifier.DLog (Heap_read_push_of_some _ hc)
      (Heap_read_push_of_some _ hch)]
    simp only []
    rw [MultiplyRef_eq verifier.DLog (Heap_read_push_self _ _)
      (Heap_read_push_of_some _ (Heap_read_push_of_some _ ha))]
    simp only []
    rw [Heap_cmpEq_eq
      (Heap_read_push_of_some _ (Heap_read_push_of_some _ (Heap_read_push_self _ _)))
      (Heap_read_push_self _ _)]
    simp only [PartialDLogVerifier.verifyTriple, hd]

theorem TripleRef_load_of_allocated {triple : TripleRef} {h : Heap}
    (ht : triple.allocated h = true) :
    ∃ a b c : Nat, h.read triple.A = some a ∧ h.read triple.B = some b ∧
      h.read triple.C = some c ∧ triple.load h = some ⟨a, b, c⟩ := by
  simp only [TripleRef.allocated, Bool.and_eq_true, decide_eq_true_eq] at ht
  obtain ⟨a, ha⟩ := Heap_read_of_lt ht.1.1
  obtain ⟨b, hb⟩ := Heap_read_of_lt ht.1.2
  obtain ⟨c, hc⟩ := Heap_read_of_lt ht.2
  exact ⟨a, b, c, ha, hb, hc, by simp only [TripleRef.load, ha, hb, hc]⟩

/-- Method `Verify` on the heap refines `Verify` on values: on a verifier whose pointers
are allocated it fails exactly when `Verify` on the values read fails, and otherwise
returns the same boolean, the same verifier and a heap that extends the given one. -/
theorem VerifierRef_Verify_refines (verifier : VerifierRef) (h : Heap)
    (c1 z1 c2 z2 c1v z1v c2v z2v : Nat) (hv : verifier.allocated h = true)
    (hc1 : h.read c1 = some c1v) (hz1 : h.read z1 = some z1v)
    (hc2 : h.read c2 = some c2v) (hz2 : h.read z2 = some z2v) :
    ((verifier.load h).Verify c1v z1v c2v z2v = none ∧
        verifier.Verify h c1 z1 c2 z2 = none) ∨
    ∃ (b : Bool) (hn : Heap), (verifier.load h).Verify c1v z1v c2v z2v = some b ∧
      h.cells <+: hn.cells ∧ verifier.Verify h c1 z1 c2 z2 = some (hn, verifier, b) := by
  obtain ⟨dlog, t1o, t2o, cho⟩ := verifier
  simp only [VerifierRef.allocated, Bool.and_eq_true] at hv
  obtain ⟨⟨hv1, hv2⟩, hvc⟩ := hv
  unfold VerifierRef.Verify
  rw [Heap_newXor_eq hc1 hc2]
  simp only []
  cases cho with
  | none =>
    left
    simp [VerifierRef.load, PartialDLogVerifier.Verify]
  | some chp =>
    simp only [Option.all_some, decide_eq_true_eq] at hvc
    obtain ⟨chv, hchv⟩ := Heap_read_of_lt hvc
    simp only [Heap_cmpEq_eq (Heap_read_push_self h (c1v ^^^ c2v))
      (Heap_read_push_of_some _ hchv)]
    by_cases hx : c1v ^^^ c2v = chv
    · simp only [hx, decide_True, Bool.true_eq_false, if_false]
      cases t1o with
      | none =>
        left
        simp [VerifierRef.load, PartialDLogVerifier.Verify, hchv, hx]
      | some t1 =>
        simp only [Option.all_some] at hv1
        obtain ⟨a1, b1, e1, hA1, hB1, hC1, hl1⟩ := TripleRef_load_of_allocated hv1
        obtain ⟨hA, hpreA, hrunA⟩ := VerifierRef_verifyTriple_eq
          ⟨dlog, some t1, t2o, some chp⟩
          (VerifierRef.load ⟨dlog, some t1, t2o, some chp⟩ h) rfl
          (Heap_read_push_of_some (chv) hA1) (Heap_read_push_of_some (chv) hB1)
          (Heap_read_push_of_some (chv) hC1) (Heap_read_push_of_some (chv) hc1)
          (Heap_read_push_of_some (chv) hz1)
        simp only [hrunA]
        have hpre : h.cells <+: hA.cells := (Heap_push_extends h chv).trans hpreA
        cases t2o with
        | none =>
          left
          simp [VerifierRef.load, PartialDLogVerifier.Verify, hchv, hx, hl1]
        | some t2 =>
          simp only [Option.all_some] at hv2
          obtain ⟨a2, b2, e2, hA2, hB2, hC2, hl2⟩ := TripleRef_load_of_allocated hv2
          have up : ∀ {p v : Nat}, h.read p = some v → hA.read p = some v := by
            intro p v hp
            rw [Heap_read_of_extension hpre (Heap_read_lt hp)]
            exact hp
          obtain ⟨hB, hpreB, hrunB⟩ := VerifierRef_verifyTriple_eq
            ⟨dlog, some t1, some t2, some chp⟩
            (VerifierRef.load ⟨dlog, some t1, some t2, some chp⟩ h) rfl
            (up hA2) (up hB2) (up hC2) (up hc2) (up hz2)
          simp only [hrunB]
          right
          refine ⟨_, hB, ?_, hpre.trans hpreB, rfl⟩
          simp [VerifierRef.load, PartialDLogVerifier.Verify, hchv, hx, hl1, hl2,
            PartialDLogVerifier.verifyTriple]
    · right
      refine ⟨false, h.push (c1v ^^^ c2v), ?_, Heap_push_extends h _, ?_⟩
      · simp [VerifierRef.load, PartialDLogVerifier.Verify, hchv, hx]
      · simp [hx]

theorem TripleRef_load_of_extension {triple : TripleRef} {h h1 : Heap}
    (ht : triple.allocated h = true) (hpre : h.cells <+: h1.cells) :
    triple.load h1 = triple.load h ∧ triple.allocated h1 = true := by
  have hlen := hpre.length_le
  simp only [TripleRef.allocated, Bool.and_eq_true, decide_eq_true_eq] at ht ⊢
  refine ⟨?_, ⟨by omega, by omega⟩, by omega⟩
  unfold TripleRef.load
  rw [Heap_read_of_extension hpre ht.1.1, Heap_read_of_extension hpre ht.1.2,
    Heap_read_of_extension hpre ht.2]

/-- The values a verifier points to are the same in every heap that extends the one in
which its pointers are allocated. -/
theorem VerifierRef_load_of_extension {verifier : VerifierRef} {h h1 : Heap}
    (hv : verifier.allocated h = true) (hpre : h.cells <+: h1.cells) :
    verifier.load h1 = verifier.load h ∧ verifier.allocated h1 = true := by
  have hlen := hpre.length_le
  obtain ⟨dlog, t1o, t2o, cho⟩ := verifier
  simp only [VerifierRef.allocated, Bool.and_eq_true] at hv ⊢
  obtain ⟨⟨hv1, hv2⟩, hvc⟩ := hv
  have e1 : t1o.bind (fun t => t.load h1) = t1o.bind (fun t => t.load h) ∧
      t1o.all (fun t => t.allocated h1) = true := by
    cases t1o with
    | none => exact ⟨rfl, rfl⟩
    | some t =>
      simp only [Option.all_some] at hv1
      simpa using TripleRef_load_of_extension hv1 hpre
  have e2 : t2o.bind (fun t => t.load h1) = t2o.bind (fun t => t.load h) ∧
      t2o.all (fun t => t.allocated h1) = true := by
    cases t2o with
    | none => exact ⟨rfl, rfl⟩
    | some t =>
      simp only [Option.all_some] at hv2
      simpa using TripleRef_load_of_extension hv2 hpre
  have e3 : cho.bind (fun p => h1.read p) = cho.bind (fun p => h.read p) ∧
      cho.all (fun p => decide (p < h1.cells.length)) = true := by
    cases cho with
    | none => exact ⟨rfl, rfl⟩
    | some p =>
      simp only [Option.all_some, decide_eq_true_eq] at hvc
      simp only [Option.some_bind, Option.all_some, decide_eq_true_eq]
      exact ⟨Heap_read_of_extension hpre hvc, by omega⟩
  refine ⟨?_, ⟨e1.2, e2.2⟩, e3.2⟩
  simp only [VerifierRef.load, e1.1, e2.1, e3.1]

/-- C11 (`Verify` is a pure function of the stored state and its arguments). On a heap
where the pointers of the verifier and the four arguments are allocated, a call of
`Verify` that returns leaves the verifier and every object allocated before the call
unchanged, so both stored triples and the stored challenge hold the values they held; the
boolean it returns is the one `Verify` computes from the values stored and passed; a second
call with the same arguments, on the heap and the verifier left by the first, returns the
same boolean. On a verifier holding two triples and a challenge the call returns. -/
theorem Verify_frame (verifier : VerifierRef) (h : Heap) (c1 z1 c2 z2 : Nat)
    (hv : verifier.allocated h = true)
    (hargs : c1 < h.cells.length ∧ z1 < h.cells.length ∧ c2 < h.cells.length ∧
      z2 < h.cells.length) :
    (∀ (h1 : Heap) (verifier1 : VerifierRef) (verified : Bool),
      verifier.Verify h c1 z1 c2 z2 = some (h1, verifier1, verified) →
        verifier1 = verifier ∧
        (∀ p : Nat, p < h.cells.length → h1.read p = h.read p) ∧
        verifier1.load h1 = verifier.load h ∧
        (∃ c1v z1v c2v z2v : Nat, h.read c1 = some c1v ∧ h.read z1 = some z1v ∧
          h.read c2 = some c2v ∧ h.read z2 = some z2v ∧
          (verifier.load h).Verify c1v z1v c2v z2v = some verified) ∧
        ∃ h2 : Heap, verifier1.Verify h1 c1 z1 c2 z2 = some (h2, verifier1, verified)) ∧
    (∀ (t1 t2 : TripleRef) (ch : Nat), verifier.triple1 = some t1 →
      verifier.triple2 = some t2 → verifier.challenge = some ch →
        ∃ (h1 : Heap) (verified : Bool),
          verifier.Verify h c1 z1 c2 z2 = some (h1, verifier, verified)) := by
  obtain ⟨c1v, hc1⟩ := Heap_read_of_lt hargs.1
  obtain ⟨z1v, hz1⟩ := Heap_read_of_lt hargs.2.1
  obtain ⟨c2v, hc2⟩ := Heap_read_of_lt hargs.2.2.1
  obtain ⟨z2v, hz2⟩ := Heap_read_of_lt hargs.2.2.2
  have href := VerifierRef_Verify_refines verifier h c1 z1 c2 z2 c1v z1v c2v z2v hv
    hc1 hz1 hc2 hz2
  constructor
  · intro h1 verifier1 verified hrun
    rcases href with ⟨_, hnone⟩ | ⟨b, hn, hpure, hpre, hsome⟩
    · rw [hnone] at hrun
      exact Option.noConfusion hrun
    · rw [hsome, Option.some.injEq, Prod.mk.injEq, Prod.mk.injEq] at hrun
      obtain ⟨e1, e2, e3⟩ := hrun
      subst e1
      subst e2
      subst e3
      have hload := VerifierRef_load_of_extension hv hpre
      have up : ∀ {p v : Nat}, h.read p = some v → hn.read p = some v := by
        intro p v hp
        rw [Heap_read_of_extension hpre (Heap_read_lt hp)]
        exact hp
      refine ⟨rfl, fun p hp => Heap_read_of_extension hpre hp, hload.1,
        ⟨c1v, z1v, c2v, z2v, hc1, hz1, hc2, hz2, hpure⟩, ?_⟩
      have href2 := VerifierRef_Verify_refines verifier hn c1 z1 c2 z2 c1v z1v c2v z2v
        hload.2 (up hc1) (up hz1) (up hc2) (up hz2)
      rw [hload.1, hpure] at href2
      rcases href2 with ⟨hcontra, _⟩ | ⟨b2, hn2, hpure2, _, hsome2⟩
      · exact Option.noConfusion hcontra
      · rw [Option.some.injEq] at hpure2
        subst hpure2
        exact ⟨hn2, hsome2⟩
  · intro t1 t2 ch ht1 ht2 hch
    rcases href with ⟨hnone, _⟩ | ⟨b, hn, _, _, hsome⟩
    · exfalso
      obtain ⟨dlog, t1o, t2o, cho⟩ := verifier
      simp only at ht1 ht2 hch
      subst ht1
      subst ht2
      subst hch
      simp only [VerifierRef.allocated, Bool.and_eq_true, Option.all_some,
        decide_eq_true_eq] at hv
      obtain ⟨a1, b1, e1, _, _, _, hl1⟩ := TripleRef_load_of_allocated hv.1.1
      obtain ⟨a2, b2, e2, _, _, _, hl2⟩ := TripleRef_load_of_allocated hv.1.2
      obtain ⟨chv, hchv⟩ := Heap_read_of_lt hv.2
      rw [Verify_of_set _ ⟨a1, b1, e1⟩ ⟨a2, b2, e2⟩ chv c1v z1v c2v z2v
        (by simp [VerifierRef.load, hl1]) (by simp [VerifierRef.load, hl2])
        (by simp [VerifierRef.load, hchv])] at hnone
      exact Option.noConfusion hnone
    · exact ⟨hn, b, hsome⟩

theorem Verify_frame_witness :
    VerifierRef.allocated ⟨⟨23, 11⟩, some ⟨0, 1, 2⟩, some ⟨3, 4, 5⟩, some 6⟩
        ⟨[12, 4, 18, 1, 2, 9, 3, 11, 5, 8, 7]⟩ = true ∧
    VerifierRef.Verify ⟨⟨23, 11⟩, some ⟨0, 1, 2⟩, some ⟨3, 4, 5⟩, some 6⟩
        ⟨[12, 4, 18, 1, 2, 9, 3, 11, 5, 8, 7]⟩ 7 8 9 10 =
      some (⟨[12, 4, 18, 1, 2, 9, 3, 11, 5, 8, 7, 3, 12, 1, 12, 13, 13, 13]⟩,
        ⟨⟨23, 11⟩, some ⟨0, 1, 2⟩, some ⟨3, 4, 5⟩, some 6⟩, true) ∧
    ∃ h2 : Heap,
      VerifierRef.Verify ⟨⟨23, 11⟩, some ⟨0, 1, 2⟩, some ⟨3, 4, 5⟩, some 6⟩
        ⟨[12, 4, 18, 1, 2, 9, 3, 11, 5, 8, 7, 3, 12, 1, 12, 13, 13, 13]⟩ 7 8 9 10 =
      some (h2, ⟨⟨23, 11⟩, some ⟨0, 1, 2⟩, some ⟨3, 4, 5⟩, some 6⟩, true) :=
  ⟨by decide, by decide,
    ((Verify_frame ⟨⟨23, 11⟩, some ⟨0, 1, 2⟩, some ⟨3, 4, 5⟩, some 6⟩
      ⟨[12, 4, 18, 1, 2, 9, 3, 11, 5, 8, 7]⟩ 7 8 9 10 (by decide)
      ⟨by decide, by decide, by decide, by decide⟩).1 _ _ true (by decide)).2.2.2.2⟩

/-- The two embeddings of `GetProofData` agree: the call returns the same values, and
fails in the one exactly when it fails in the other. -/
theorem GetProofDataOutcome_toOption (prover : PartialDLogProver) (challenge : Nat) :
    (prover.GetProofDataOutcome challenge).toOption = prover.GetProofData challenge := by
  obtain ⟨dlog, so, f1, f2, ro, co, zo, ord⟩ := prover
  cases co <;> cases so <;> cases ro <;> cases zo <;>
    simp only [PartialDLogProver.GetProofDataOutcome, PartialDLogProver.GetProofData,
      Except.toOption]
  all_goals (split_ifs <;> rfl)

/-- C13, as amended. On a prover freshly built by `NewPartialDLogProver`, on which
`GetProofRandomData` has not been called (`secret1`, `r1`, `c2`, `z2` unset),
`GetProofData` with any challenge fails and returns no response values; the failure is
the run-time panic of `Xor` dereferencing the unset `c2`, in every group, also when the
order of the subgroup is zero. -/
theorem GetProofData_before_initiate (dlog : ZpDLog) (c : Nat) :
    (NewPartialDLogProver dlog).secret1 = none ∧ (NewPartialDLogProver dlog).r1 = none ∧
    (NewPartialDLogProver dlog).c2 = none ∧ (NewPartialDLogProver dlog).z2 = none ∧
    (NewPartialDLogProver dlog).GetProofDataOutcome c =
      Except.error Failure.nilDereference ∧
    (NewPartialDLogProver dlog).GetProofData c = none ∧
    (NewPartialDLogProver dlog).GetProofDataCall c = none :=
  ⟨rfl, rfl, rfl, rfl, rfl, rfl, rfl⟩

/-- C13 as stated fails: in the group `p = 23`, `q = 11`, `GetProofData` with the
challenge 3 on a fresh prover fails by a nil dereference, which is not an invalid-state
error. -/
theorem fresh_prover_fails_by_nil_dereference :
    (NewPartialDLogProver ⟨23, 11⟩).GetProofDataOutcome 3 =
      Except.error Failure.nilDereference ∧
    (NewPartialDLogProver ⟨23, 11⟩).GetProofDataOutcome 3 ≠
      Except.error Failure.invalidState := by
  refine ⟨rfl, ?_⟩
  intro h
  have h2 : (Except.error Failure.nilDereference : Except Failure (Nat × Nat × Nat × Nat)) =
      Except.error Failure.invalidState := h
  rw [Except.error.injEq] at h2
  exact Failure.noConfusion h2

end Emmy
